import Mathlib

/-!
# Wavefront OBJ importer, wave modifier descriptor and rigid-body records

A shallow embedding of `OBJImporter::parse_and_store` and `mesh_from_raw_obj` of
`source/blender/io/wavefront_obj/intern/wavefront_obj_importer.cc` (namespace `OBJ`),
of the descriptor and `initData` of `source/blender/modifiers/intern/MOD_gpencilwave.c`
(namespace `GpencilWave`), and of the field lists of the records of
`source/blender/makesdna/DNA_rigidbody_types.h` (namespace `DNA`).

For the importer:

* The input file is the list of its lines (what `std::getline` yields), a line is
  a list of characters.
* `std::stringstream` extraction is modelled on the unread remainder of the line:
  `operator>>` first skips whitespace, then reads a token; a failed extraction puts
  the stream in the failed state.
* `int` is 32 bits wide: an integer field outside `[INT_MIN, INT_MAX]` makes the
  extraction fail, and arithmetic on a stored `int` wraps modulo `2^32`.
* Element counts (`size()`, `tot_loop`, `tot_normals`, the index offsets) are natural
  numbers.
* Reading a `float` is a parameter of the model (`FloatExtract`).
* The current-object pointer `curr_ob` is an `Option`: dereferencing it while it is
  unset makes the whole run return `none`.
* Characters are Lean characters; the source compares bytes, and every comparison it
  makes is with an ASCII character.

The statements about whole files describe a file by its cut at the `o` lines: the
lines `pre` in front of the first `o` line and the segments `segs`, each an `o` line
with the lines up to the next `o` line (`Segmented`, `segLines`). Every file has this
form (`segmented_splitObjects`).
-/

namespace OBJ

/-! ## Characters and stream extraction -/

/-- One line of the input file, without its terminating newline. -/
abbrev Line := List Char

/-- The whitespace class of the "C" locale: space and the control characters 9 to 13. -/
def isspace (c : Char) : Bool :=
  c.toNat == 32 || (decide (9 ≤ c.toNat) && decide (c.toNat ≤ 13))

/-- Decimal digits. -/
def isdigit (c : Char) : Bool :=
  decide (48 ≤ c.toNat) && decide (c.toNat ≤ 57)

/-- The whitespace skipping done by the sentry of every formatted extraction. -/
def skipws (s : List Char) : List Char :=
  s.dropWhile isspace

/-- The token read by `stream >> std::string`: after the leading whitespace, the
characters up to the next whitespace character or the end of the line. It is empty
exactly when the extraction fails. -/
def tokenOf (s : List Char) : List Char :=
  (skipws s).takeWhile (fun c => !isspace c)

/-- The unread remainder of the stream after `stream >> std::string`. -/
def afterToken (s : List Char) : List Char :=
  (skipws s).dropWhile (fun c => !isspace c)

/-- The key of a line: `s_line >> line_key`. -/
def lineKey (line : Line) : List Char :=
  tokenOf line

def INT_MAX : Int := 2147483647

def INT_MIN : Int := -2147483648

/-- The value of a run of decimal digits. -/
def digitsValue (ds : List Char) : Nat :=
  ds.foldl (fun acc c => 10 * acc + (c.toNat - 48)) 0

/-- An optional sign in front of the digits of an integer field. -/
def splitSign : List Char → Bool × List Char
  | [] => (false, [])
  | c :: u => if c = '-' then (true, u) else if c = '+' then (false, u) else (false, c :: u)

/-- The value of a digit run under its sign. -/
def signedValue (neg : Bool) (n : Nat) : Int :=
  if neg then -(n : Int) else (n : Int)

/-- The extraction `stream >> int` on the unread text `s`: skip whitespace, read an
optional sign and the longest run of digits. The result is the value and the new
unread remainder, or `none` when the extraction fails: no digit could be read, or the
value does not fit in an `int`. -/
def extractInt (s : List Char) : Option (Int × List Char) :=
  let su := splitSign (skipws s)
  let ds := su.2.takeWhile isdigit
  if ds = [] then none
  else
    let v : Int := signedValue su.1 (digitsValue ds)
    if v < INT_MIN ∨ INT_MAX < v then none
    else some (v, su.2.dropWhile isdigit)

/-- Arithmetic on an `int` keeps the low 32 bits, read as a two's complement number. -/
def wrapInt32 (x : Int) : Int :=
  (x + 2147483648) % 4294967296 - 2147483648

/-- The extraction `stream >> float` proper, on text that starts with a character that
is not whitespace: the value stored in the target, and the unread remainder, `none`
when the extraction sets the fail bit. -/
abbrev FloatExtract (F : Type) := List Char → F × Option (List Char)

/-- The extraction `stream >> float` on a stream that may already have failed (`none`).
The first component is the value written to the target, `none` when the target is
left untouched: on a failed stream, and when only whitespace is left. -/
def extractFloat {F : Type} (fx : FloatExtract F) :
    Option (List Char) → Option F × Option (List Char)
  | none => (none, none)
  | some s =>
    match skipws s with
    | [] => (none, none)
    | c :: t => (some (fx (c :: t)).1, (fx (c :: t)).2)

/-! ## Data model -/

/-- A face corner; only `vert_index` is used by the importer. -/
structure OBJFaceCorner where
  vert_index : Int
deriving DecidableEq

/-- The coordinates `co[0..2]` of an `MVert`; `none` is a coordinate that was never
written. -/
structure MVert (F : Type) where
  co0 : Option F
  co1 : Option F
  co2 : Option F
deriving DecidableEq

/-- The coordinates `uv[0..1]` of an `MLoopUV`; `none` is a coordinate that was never
written. -/
structure MLoopUV (F : Type) where
  uv0 : Option F
  uv1 : Option F
deriving DecidableEq

/-- Modelled from the spec: the class `OBJRawObject` is declared in
`wavefront_obj_importer.hh`, which is not part of the sources. The fields are those the
importer uses: the text handed to the constructor, the vertices, the texture
coordinates, the face corner index lists, the two counters and the material names. -/
structure OBJRawObject (F : Type) where
  object_name : List Char
  vertices : List (MVert F)
  texture_vertices : List (MLoopUV F)
  face_elements : List (List OBJFaceCorner)
  tot_normals : Nat
  tot_loop : Nat
  material_name : List (List Char)
deriving DecidableEq

/-- Modelled from the spec: the constructor `OBJRawObject(name)` is declared in
`wavefront_obj_importer.hh`, which is not part of the sources. A fresh raw object keeps
the text it is given, has empty lists and counters at zero. -/
def OBJRawObject.fresh {F : Type} (name : List Char) : OBJRawObject F :=
  { object_name := name, vertices := [], texture_vertices := [], face_elements := [],
    tot_normals := 0, tot_loop := 0, material_name := [] }

/-- The importer's state while parsing: the caller's `list_of_objects`, the member
`index_offsets` (its two entries `VERTEX_OFF` and `UV_VERTEX_OFF`), and the local
pointer `curr_ob`, here the position it points to in `list_of_objects`, `none` while
it is uninitialised. -/
structure OBJImporter (F : Type) where
  list_of_objects : List (OBJRawObject F)
  vertex_off : Nat
  uv_vertex_off : Nat
  curr_ob : Option Nat
deriving DecidableEq

/-- The start of `importer_main`: an empty object list, zero index offsets, `curr_ob`
not yet assigned. -/
def OBJImporter.init {F : Type} : OBJImporter F :=
  { list_of_objects := [], vertex_off := 0, uv_vertex_off := 0, curr_ob := none }

/-! ## `parse_and_store` -/

/-- The body of the `v` branch: `s_line >> co[0] >> co[1] >> co[2]`. -/
def readVert {F : Type} (fx : FloatExtract F) (s : List Char) : MVert F :=
  let r0 := extractFloat fx (some s)
  let r1 := extractFloat fx r0.2
  let r2 := extractFloat fx r1.2
  { co0 := r0.1, co1 := r1.1, co2 := r2.1 }

/-- The body of the `vt` branch: `s_line >> uv[0] >> uv[1]`. -/
def readTexVert {F : Type} (fx : FloatExtract F) (s : List Char) : MLoopUV F :=
  let r0 := extractFloat fx (some s)
  let r1 := extractFloat fx r0.2
  { uv0 := r0.1, uv1 := r1.1 }

/-- The corner stored for the index `i` read from a face line: `vert_index--`, then
`vert_index -= index_offsets[VERTEX_OFF]`. -/
def cornerOf (off : Nat) (i : Int) : OBJFaceCorner :=
  { vert_index := wrapInt32 (wrapInt32 (i - 1) - (off : Int)) }

/-- The loop `while (s_line)` of the `f` branch on the unread text `s`: corners are
read until an extraction fails. Every round consumes at least one character, so
`fuel` rounds are enough when `fuel` exceeds the length of `s`. -/
def readCorners (off : Nat) : Nat → List Char → List OBJFaceCorner
  | 0, _ => []
  | fuel + 1, s =>
    match extractInt s with
    | none => []
    | some (i, rest) => cornerOf off i :: readCorners off fuel rest

/-- The face `curr_face` built by the `f` branch from the text after the key. -/
def readFace (off : Nat) (s : List Char) : List OBJFaceCorner :=
  readCorners off (s.length + 1) s

/-- The object `*curr_ob` points to; `none` when `curr_ob` is unset (or dangling). -/
def OBJImporter.deref {F : Type} (st : OBJImporter F) : Option (OBJRawObject F) :=
  match st.curr_ob with
  | none => none
  | some i => st.list_of_objects[i]?

/-- An update `(*curr_ob)->... ` of the current object. -/
def OBJImporter.updateCurr {F : Type} (st : OBJImporter F)
    (f : OBJRawObject F → OBJRawObject F) : Option (OBJImporter F) :=
  match st.curr_ob with
  | none => none
  | some i =>
    match st.list_of_objects[i]? with
    | none => none
    | some ob => some { st with list_of_objects := st.list_of_objects.set i (f ob) }

/-- One round of the `while (std::getline(infile_, line))` loop. -/
def processLine {F : Type} (fx : FloatExtract F) (st : OBJImporter F) (line : Line) :
    Option (OBJImporter F) :=
  let line_key := lineKey line
  let s_line := afterToken line
  if line_key = ['o'] then
    if 0 < st.list_of_objects.length then
      match st.deref with
      | none => none
      | some ob =>
        some { list_of_objects := st.list_of_objects ++ [OBJRawObject.fresh line],
               vertex_off := st.vertex_off + ob.vertices.length,
               uv_vertex_off := st.uv_vertex_off + ob.texture_vertices.length,
               curr_ob := some st.list_of_objects.length }
    else
      some { st with list_of_objects := st.list_of_objects ++ [OBJRawObject.fresh line],
                     curr_ob := some st.list_of_objects.length }
  else if line_key = ['v'] then
    st.updateCurr (fun ob => { ob with vertices := ob.vertices ++ [readVert fx s_line] })
  else if line_key = ['v', 'n'] then
    st.updateCurr (fun ob => { ob with tot_normals := ob.tot_normals + 1 })
  else if line_key = ['v', 't'] then
    st.updateCurr (fun ob =>
      { ob with texture_vertices := ob.texture_vertices ++ [readTexVert fx s_line] })
  else if line_key = ['f'] then
    st.updateCurr (fun ob =>
      { ob with face_elements := ob.face_elements ++ [readFace st.vertex_off s_line],
                tot_loop := ob.tot_loop + (readFace st.vertex_off s_line).length })
  else if line_key = ['u', 's', 'e', 'm', 't', 'l'] then
    st.updateCurr (fun ob => { ob with material_name := ob.material_name ++ [line] })
  else
    some st

/-- The function `OBJImporter::parse_and_store`: the loop over the lines of the file. -/
def parse_and_store {F : Type} (fx : FloatExtract F) :
    OBJImporter F → List Line → Option (OBJImporter F)
  | st, [] => some st
  | st, line :: rest =>
    match processLine fx st line with
    | none => none
    | some st' => parse_and_store fx st' rest

/-! ## `mesh_from_raw_obj` -/

/-- A loop that computes `f` on every entry in turn and collects the results; it is
`none` as soon as one `f` is. -/
def forEach {α β : Type} (f : α → Option β) : List α → Option (List β)
  | [] => some []
  | a :: as =>
    match f a with
    | none => none
    | some b =>
      match forEach f as with
      | none => none
      | some bs => some (b :: bs)

/-- An element access `xs[i]` with an `int` index, `none` when out of bounds. -/
def elemAt {α : Type} (xs : List α) (i : Int) : Option α :=
  if 0 ≤ i then xs[i.toNat]? else none

/-- The vertices of one face in `mesh_from_raw_obj`: `verts_of_face[i] =
all_vertices[curr_face[i].vert_index]` for every corner, then the access
`verts_of_face[0]`. -/
def vertsOfFace {α : Type} (all_vertices : List α) (curr_face : List OBJFaceCorner) :
    Option (List α) :=
  match forEach (fun c => elemAt all_vertices c.vert_index) curr_face with
  | none => none
  | some verts_of_face =>
    match verts_of_face[0]? with
    | none => none
    | some _ => some verts_of_face

/-- The element accesses of `mesh_from_raw_obj`: one vertex is created per entry of
`vertices` (it is represented by that entry), and every face is created from the
vertices its corners index. The result is the list of vertex lists handed to
`BM_face_create_ngon_verts`, or `none` when an access is out of bounds. -/
def mesh_from_raw_obj {F : Type} (curr_object : OBJRawObject F) :
    Option (List (List (MVert F))) :=
  forEach (vertsOfFace curr_object.vertices) curr_object.face_elements

/-! ## A sample reader for concrete runs -/

/-- A `FloatExtract` that reads integer literals only, used to run the model on
concrete files. -/
def intFloat : FloatExtract Int := fun s =>
  match extractInt s with
  | none => (0, none)
  | some (v, rest) => (v, some rest)

/-! ## The file seen as a sequence of objects -/

/-- Whether the key of a line is `k`. -/
def hasKey (k : List Char) (l : Line) : Bool :=
  decide (lineKey l = k)

/-- The keys of the five branches that dereference `curr_ob` unconditionally. -/
def isDataKey (k : List Char) : Bool :=
  decide (k = ['v']) || decide (k = ['v', 'n']) || decide (k = ['v', 't']) ||
    decide (k = ['f']) || decide (k = ['u', 's', 'e', 'm', 't', 'l'])

/-- The object `ob` after the lines `body`, none of which opens a new object, were
read with the vertex offset `off` in force: one vertex per `v` line, one texture
vertex per `vt` line, one face per `f` line, one material name per `usemtl` line,
each in the order of the lines, and the counters advanced. -/
def extendObject {F : Type} (fx : FloatExtract F) (off : Nat) (ob : OBJRawObject F)
    (body : List Line) : OBJRawObject F :=
  { object_name := ob.object_name
    vertices := ob.vertices ++
      (body.filter (hasKey ['v'])).map (fun l => readVert fx (afterToken l))
    texture_vertices := ob.texture_vertices ++
      (body.filter (hasKey ['v', 't'])).map (fun l => readTexVert fx (afterToken l))
    face_elements := ob.face_elements ++
      (body.filter (hasKey ['f'])).map (fun l => readFace off (afterToken l))
    tot_normals := ob.tot_normals + (body.filter (hasKey ['v', 'n'])).length
    tot_loop := ob.tot_loop +
      ((body.filter (hasKey ['f'])).map (fun l => (readFace off (afterToken l)).length)).sum
    material_name := ob.material_name ++ body.filter (hasKey ['u', 's', 'e', 'm', 't', 'l']) }

/-- The lines of a file cut at its `o` lines: the lines in front of the first `o` line,
and for every `o` line that line with the lines up to the next `o` line. -/
def splitObjects : List Line → List Line × List (Line × List Line)
  | [] => ([], [])
  | l :: ls =>
    if lineKey l = ['o'] then ([], (l, (splitObjects ls).1) :: (splitObjects ls).2)
    else (l :: (splitObjects ls).1, (splitObjects ls).2)

/-- The lines of a file made of the segments `segs`, each an `o` line and its body. -/
def segLines : List (Line × List Line) → List Line
  | [] => []
  | s :: rest => s.1 :: (s.2 ++ segLines rest)

/-- The number of `v` lines in the segments `segs`. -/
def vertexCount (segs : List (Line × List Line)) : Nat :=
  (segs.map (fun s => (s.2.filter (hasKey ['v'])).length)).sum

/-- The raw objects of the segments `segs`, the first of them read with the vertex
offset `off`; the offset grows by the number of vertices of every finished object. -/
def buildObjects {F : Type} (fx : FloatExtract F) :
    Nat → List (Line × List Line) → List (OBJRawObject F)
  | _, [] => []
  | off, s :: rest =>
    extendObject fx off (OBJRawObject.fresh s.1) s.2 ::
      buildObjects fx (off + (s.2.filter (hasKey ['v'])).length) rest

/-- Whether a line with a data key comes before the first `o` line. -/
def dataBeforeO : List Line → Bool
  | [] => false
  | l :: ls =>
    if lineKey l = ['o'] then false
    else if isDataKey (lineKey l) then true
    else dataBeforeO ls

/-- The indices read from the text of a face line after its key, as written in the
file: the integers the loop of the `f` branch extracts before it adjusts them. -/
def readIndices : Nat → List Char → List Int
  | 0, _ => []
  | fuel + 1, s =>
    match extractInt s with
    | none => []
    | some (i, rest) => i :: readIndices fuel rest

/-- The indices of a face line. -/
def faceIndices (l : Line) : List Int :=
  readIndices ((afterToken l).length + 1) (afterToken l)

/-- The file `pre ++ segLines segs` is cut at its `o` lines: no line of `pre` and of
the bodies has the key `o`, and every segment starts with an `o` line. -/
def Segmented (pre : List Line) (segs : List (Line × List Line)) : Prop :=
  (∀ l ∈ pre, lineKey l ≠ ['o']) ∧
    ∀ s ∈ segs, lineKey s.1 = ['o'] ∧ ∀ l ∈ s.2, lineKey l ≠ ['o']

/-- The importer state that belongs to the object list `objs`: the offsets count the
vertices and texture vertices of all objects but the last, and `curr_ob` points to the
last object. -/
def stateOf {F : Type} (objs : List (OBJRawObject F)) : OBJImporter F :=
  { list_of_objects := objs
    vertex_off := (objs.dropLast.map (fun ob => ob.vertices.length)).sum
    uv_vertex_off := (objs.dropLast.map (fun ob => ob.texture_vertices.length)).sum
    curr_ob := if objs.isEmpty then none else some (objs.length - 1) }

/-- The text `t` is a decimal integer of value `i`: an optional sign, then at least
one digit. -/
def IsDecimal (t : List Char) (i : Int) : Prop :=
  ∃ ds : List Char, ds ≠ [] ∧ (∀ c ∈ ds, isdigit c = true) ∧
    ((t = ds ∧ i = (digitsValue ds : Int)) ∨ (t = '+' :: ds ∧ i = (digitsValue ds : Int)) ∨
      (t = '-' :: ds ∧ i = -(digitsValue ds : Int)))

/-- The text of a sequence of fields, each given as its leading separator, its text
and its value. -/
def fieldsText : List (List Char × List Char × Int) → List Char
  | [] => []
  | x :: rest => x.1 ++ (x.2.1 ++ fieldsText rest)

/-- The fields are whitespace-separated decimal integers: every separator is a
non-empty run of whitespace and every text is a decimal integer with the value that
goes with it. -/
def IntFields (fields : List (List Char × List Char × Int)) : Prop :=
  ∀ x ∈ fields, x.1 ≠ [] ∧ (∀ c ∈ x.1, isspace c = true) ∧ IsDecimal x.2.1 x.2.2

/-- The number of vertices stored in the objects `objs`. -/
def totalVertices {F : Type} (objs : List (OBJRawObject F)) : Nat :=
  (objs.map (fun ob => ob.vertices.length)).sum

/-- The keys `v`, `vn`, `vt`, `f` and `usemtl`. -/
def dataKeys : List (List Char) :=
  [['v'], ['v', 'n'], ['v', 't'], ['f'], ['u', 's', 'e', 'm', 't', 'l']]

/-- A sample raw object: the object of the line `o A` with one vertex. -/
def sampleA : OBJRawObject Int :=
  { (OBJRawObject.fresh "o A".toList : OBJRawObject Int) with
    vertices := [{ co0 := some 1, co1 := some 2, co2 := some 3 }] }

/-- A sample state: the file `o A` has been read. -/
def stateA : OBJImporter Int :=
  stateOf [OBJRawObject.fresh "o A".toList]

/-- Sample fields of a face line: the text ` 2  -1 +3`. -/
def sampleFields : List (List Char × List Char × Int) :=
  [([' '], ['2'], 2), ([' ', ' '], ['-', '1'], -1), ([' '], ['+', '3'], 3)]

/-- The segments with the lines that fail `p` deleted from the bodies. -/
def filterBodies (p : Line → Bool) (segs : List (Line × List Line)) :
    List (Line × List Line) :=
  segs.map (fun s => (s.1, s.2.filter p))

/-- The lines that stay when the lines of key `k` are deleted. -/
def withoutKey (k : List Char) (l : Line) : Bool :=
  !hasKey k l

/-- A sample file cut at its `o` lines: one comment line in front, then two objects. -/
def samplePre : List Line :=
  ["# cube".toList]

/-- The segments of the sample file. -/
def sampleSegs : List (Line × List Line) :=
  [("o A".toList,
    ["v 1 2 3".toList, "vn 0 0 1".toList, "usemtl Red".toList, "v 4 5 6".toList,
     "vt 0 1".toList, "f 1 2".toList, "usemtl Blue".toList]),
   ("o B".toList, ["v 7 8 9".toList, "f 3 3 3".toList, "vn 1 0 0".toList])]

/-- The part of a line's effect that falls on the current object, with the vertex
offset `off` in force: the five data branches of the loop. -/
def applyData {F : Type} (fx : FloatExtract F) (off : Nat) (ob : OBJRawObject F)
    (line : Line) : OBJRawObject F :=
  if lineKey line = ['v'] then
    { ob with vertices := ob.vertices ++ [readVert fx (afterToken line)] }
  else if lineKey line = ['v', 'n'] then
    { ob with tot_normals := ob.tot_normals + 1 }
  else if lineKey line = ['v', 't'] then
    { ob with texture_vertices := ob.texture_vertices ++ [readTexVert fx (afterToken line)] }
  else if lineKey line = ['f'] then
    { ob with face_elements := ob.face_elements ++ [readFace off (afterToken line)],
              tot_loop := ob.tot_loop + (readFace off (afterToken line)).length }
  else if lineKey line = ['u', 's', 'e', 'm', 't', 'l'] then
    { ob with material_name := ob.material_name ++ [line] }
  else ob

/-- The state has a current object: `curr_ob` points to the last entry `cur` of the
object list, and the index offsets count the vertices and texture vertices of the
entries `init` in front of it. -/
def Current {F : Type} (st : OBJImporter F) (init : List (OBJRawObject F))
    (cur : OBJRawObject F) : Prop :=
  st.list_of_objects = init ++ [cur] ∧ st.curr_ob = some init.length ∧
    st.vertex_off = (init.map (fun ob => ob.vertices.length)).sum ∧
    st.uv_vertex_off = (init.map (fun ob => ob.texture_vertices.length)).sum

/-- The number of face corners of a raw object: the sum of the corner counts of the
faces in `face_elements`. -/
def cornerCount {F : Type} (ob : OBJRawObject F) : Nat :=
  (ob.face_elements.map (fun face => face.length)).sum

/-- The loop count and the polygon count `mesh_from_raw_obj` hands to the mesh
allocation `BKE_mesh_new_nomain(0, 0, 0, tot_loop, face_elements.size())`. -/
def meshAllocCounts {F : Type} (curr_object : OBJRawObject F) : Nat × Nat :=
  (curr_object.tot_loop, curr_object.face_elements.length)

/-- A sample state: the file `o A`, `f 1 2`, `f 3` has been read. -/
def stateFaces : OBJImporter Int :=
  stateOf [{ (OBJRawObject.fresh "o A".toList : OBJRawObject Int) with
             face_elements := [[{ vert_index := 0 }, { vert_index := 1 }],
               [{ vert_index := 2 }]],
             tot_loop := 3 }]

end OBJ

/-! ## The grease-pencil wave modifier, `MOD_gpencilwave.c` -/

namespace GpencilWave

/-- The functions of `MOD_gpencilwave.c` a callback slot can point to. -/
inductive Callback where
  | initData
deriving DecidableEq

/-- Modelled from the spec: the record `ModifierTypeInfo` is declared in a header that
is not part of the sources. Its fields are the slots of the initialiser of
`modifierType_GpencilWave`, in the order and under the names the initialiser gives
them; a callback slot holds `none` for `NULL`. -/
structure ModifierTypeInfo where
  name : String
  structName : String
  structSize : Nat
  type : String
  flags : List String
  copyData : Option Callback
  deformVerts : Option Callback
  deformMatrices : Option Callback
  deformVertsEM : Option Callback
  deformMatricesEM : Option Callback
  applyModifier : Option Callback
  applyModifierEM : Option Callback
  initData : Option Callback
  requiredDataMask : Option Callback
  freeData : Option Callback
  isDisabled : Option Callback
  updateDepsgraph : Option Callback
  dependsOnTime : Option Callback
  dependsOnNormals : Option Callback
  foreachObjectLink : Option Callback
  foreachIDLink : Option Callback
  foreachTexLink : Option Callback
deriving DecidableEq

/-- The descriptor `modifierType_GpencilWave`; `sizeofData` stands for
`sizeof(GpencilWaveModifierData)`. -/
def modifierType_GpencilWave (sizeofData : Nat) : ModifierTypeInfo :=
  { name := "Wave Distorsion"
    structName := "GpencilWaveModifierData"
    structSize := sizeofData
    type := "eModifierTypeType_Gpencil"
    flags := ["eModifierTypeFlag_GpencilMod", "eModifierTypeFlag_SupportsEditmode",
      "eModifierTypeFlag_GpencilVFX", "eModifierTypeFlag_Single"]
    copyData := none
    deformVerts := none
    deformMatrices := none
    deformVertsEM := none
    deformMatricesEM := none
    applyModifier := none
    applyModifierEM := none
    initData := some Callback.initData
    requiredDataMask := none
    freeData := none
    isDisabled := none
    updateDepsgraph := none
    dependsOnTime := none
    dependsOnNormals := none
    foreachObjectLink := none
    foreachIDLink := none
    foreachTexLink := none }

/-- The callback slots of a descriptor, in the order of the record. -/
def callbackSlots (t : ModifierTypeInfo) : List (String × Option Callback) :=
  [("copyData", t.copyData), ("deformVerts", t.deformVerts),
   ("deformMatrices", t.deformMatrices), ("deformVertsEM", t.deformVertsEM),
   ("deformMatricesEM", t.deformMatricesEM), ("applyModifier", t.applyModifier),
   ("applyModifierEM", t.applyModifierEM), ("initData", t.initData),
   ("requiredDataMask", t.requiredDataMask), ("freeData", t.freeData),
   ("isDisabled", t.isDisabled), ("updateDepsgraph", t.updateDepsgraph),
   ("dependsOnTime", t.dependsOnTime), ("dependsOnNormals", t.dependsOnNormals),
   ("foreachObjectLink", t.foreachObjectLink), ("foreachIDLink", t.foreachIDLink),
   ("foreachTexLink", t.foreachTexLink)]

/-- Modelled from the spec: the record `GpencilWaveModifierData` is declared in a
header that is not part of the sources. It has the four fields `initData` assigns;
`other` stands for all its other fields. `F` is the type of a `float`. -/
structure GpencilWaveModifierData (F R : Type) where
  other : R
  amplitude : F
  period : F
  phase : F
  orientation : Int

/-- The function `initData`. `f32` gives the `float` a decimal literal denotes, and
`alldirty` is the effect of `BKE_gpencil_batch_cache_alldirty()` on the rest of the
program state `w`. -/
def initData {F R W : Type} (f32 : ℚ → F) (alldirty : W → W)
    (md : GpencilWaveModifierData F R) (w : W) : GpencilWaveModifierData F R × W :=
  ({ md with amplitude := f32 6.0, period := f32 0.2, phase := f32 11.0, orientation := 1 },
   alldirty w)

end GpencilWave

/-! ## The rigid-body records, `DNA_rigidbody_types.h` -/

namespace DNA

/-- The C types of the fields of the rigid-body records. -/
inductive CType where
  | char
  | short
  | int
  | float
  | pointer
  | listBase
deriving DecidableEq

/-- The size in bytes of a C type, with 8-byte pointers; a `ListBase` is two
pointers. -/
def CType.size : CType → Nat
  | .char => 1
  | .short => 2
  | .int => 4
  | .float => 4
  | .pointer => 8
  | .listBase => 16

/-- The natural alignment of a C type. -/
def CType.align : CType → Nat
  | .char => 1
  | .short => 2
  | .int => 4
  | .float => 4
  | .pointer => 8
  | .listBase => 8

/-- A field of a record: its name, its element type and the number of elements (1
for a field that is not an array). -/
structure Field where
  name : String
  type : CType
  count : Nat
deriving DecidableEq

/-- The size in bytes of a field. -/
def Field.size (f : Field) : Nat :=
  f.type.size * f.count

/-- The offsets of the fields of a record that starts at `off`, each the sum of the
sizes of the fields in front of it: no padding is inserted. -/
def offsetsFrom : Nat → List Field → List Nat
  | _, [] => []
  | off, f :: fs => off :: offsetsFrom (off + f.size) fs

/-- The size of a record without inserted padding. -/
def packedSize (fs : List Field) : Nat :=
  (fs.map Field.size).sum

/-- The fields of `RigidBodyWorld`. -/
def RigidBodyWorld : List Field :=
  [⟨"effector_weights", .pointer, 1⟩, ⟨"group", .pointer, 1⟩, ⟨"objects", .pointer, 1⟩,
   ⟨"constraints", .pointer, 1⟩, ⟨"pad", .int, 1⟩, ⟨"ltime", .float, 1⟩,
   ⟨"shared", .pointer, 1⟩, ⟨"pointcache", .pointer, 1⟩, ⟨"ptcaches", .listBase, 1⟩,
   ⟨"numbodies", .int, 1⟩, ⟨"steps_per_second", .short, 1⟩,
   ⟨"num_solver_iterations", .short, 1⟩, ⟨"flag", .int, 1⟩, ⟨"time_scale", .float, 1⟩]

/-- The fields of `RigidBodyOb`. -/
def RigidBodyOb : List Field :=
  [⟨"type", .short, 1⟩, ⟨"shape", .short, 1⟩, ⟨"is_fractured", .int, 1⟩,
   ⟨"flag", .int, 1⟩, ⟨"col_groups", .int, 1⟩, ⟨"mesh_source", .short, 1⟩,
   ⟨"pad", .short, 1⟩, ⟨"mass", .float, 1⟩, ⟨"friction", .float, 1⟩,
   ⟨"restitution", .float, 1⟩, ⟨"margin", .float, 1⟩, ⟨"lin_damping", .float, 1⟩,
   ⟨"ang_damping", .float, 1⟩, ⟨"lin_sleep_thresh", .float, 1⟩,
   ⟨"ang_sleep_thresh", .float, 1⟩, ⟨"orn", .float, 4⟩, ⟨"pos", .float, 3⟩,
   ⟨"lin_vel", .float, 3⟩, ⟨"ang_vel", .float, 3⟩, ⟨"force_thresh", .float, 1⟩,
   ⟨"pad2", .char, 4⟩, ⟨"shared", .pointer, 1⟩]

/-- The fields that end both constraint records, from `orn` to the motor settings. -/
def constraintSettings : List Field :=
  [⟨"orn", .float, 4⟩, ⟨"pos", .float, 3⟩,
   ⟨"limit_lin_x_lower", .float, 1⟩, ⟨"limit_lin_x_upper", .float, 1⟩,
   ⟨"limit_lin_y_lower", .float, 1⟩, ⟨"limit_lin_y_upper", .float, 1⟩,
   ⟨"limit_lin_z_lower", .float, 1⟩, ⟨"limit_lin_z_upper", .float, 1⟩,
   ⟨"limit_ang_x_lower", .float, 1⟩, ⟨"limit_ang_x_upper", .float, 1⟩,
   ⟨"limit_ang_y_lower", .float, 1⟩, ⟨"limit_ang_y_upper", .float, 1⟩,
   ⟨"limit_ang_z_lower", .float, 1⟩, ⟨"limit_ang_z_upper", .float, 1⟩,
   ⟨"spring_stiffness_x", .float, 1⟩, ⟨"spring_stiffness_y", .float, 1⟩,
   ⟨"spring_stiffness_z", .float, 1⟩, ⟨"spring_stiffness_ang_x", .float, 1⟩,
   ⟨"spring_stiffness_ang_y", .float, 1⟩, ⟨"spring_stiffness_ang_z", .float, 1⟩,
   ⟨"spring_damping_x", .float, 1⟩, ⟨"spring_damping_y", .float, 1⟩,
   ⟨"spring_damping_z", .float, 1⟩, ⟨"spring_damping_ang_x", .float, 1⟩,
   ⟨"spring_damping_ang_y", .float, 1⟩, ⟨"spring_damping_ang_z", .float, 1⟩,
   ⟨"motor_lin_target_velocity", .float, 1⟩, ⟨"motor_ang_target_velocity", .float, 1⟩,
   ⟨"motor_lin_max_impulse", .float, 1⟩, ⟨"motor_ang_max_impulse", .float, 1⟩]

/-- The fields of `RigidBodyCon`. -/
def RigidBodyCon : List Field :=
  [⟨"ob1", .pointer, 1⟩, ⟨"ob2", .pointer, 1⟩, ⟨"type", .short, 1⟩,
   ⟨"num_solver_iterations", .short, 1⟩, ⟨"flag", .int, 1⟩,
   ⟨"breaking_threshold", .float, 1⟩, ⟨"spring_type", .char, 1⟩, ⟨"name", .char, 66⟩,
   ⟨"pad", .char, 5⟩] ++ constraintSettings ++ [⟨"physics_constraint", .pointer, 1⟩]

/-- The fields of `RigidBodyShardCon`. -/
def RigidBodyShardCon : List Field :=
  [⟨"next", .pointer, 1⟩, ⟨"prev", .pointer, 1⟩, ⟨"mi1", .pointer, 1⟩,
   ⟨"mi2", .pointer, 1⟩, ⟨"physics_constraint", .pointer, 1⟩, ⟨"type", .short, 1⟩,
   ⟨"num_solver_iterations", .short, 1⟩, ⟨"flag", .int, 1⟩, ⟨"name", .char, 66⟩,
   ⟨"pad", .char, 2⟩, ⟨"breaking_threshold", .float, 1⟩, ⟨"start_angle", .float, 1⟩,
   ⟨"start_dist", .float, 1⟩, ⟨"breaking_angle", .float, 1⟩,
   ⟨"breaking_dist", .float, 1⟩, ⟨"plastic_angle", .float, 1⟩,
   ⟨"plastic_dist", .float, 1⟩, ⟨"start_angle_deform", .float, 1⟩,
   ⟨"start_dist_deform", .float, 1⟩] ++ constraintSettings ++ [⟨"pad2", .char, 4⟩]

end DNA

namespace OBJ

/-! ## The state while an object is current -/

theorem getElem?_snoc_length {α : Type} (init : List α) (cur : α) :
    (init ++ [cur])[init.length]? = some cur := by
  induction init with
  | nil => rfl
  | cons a as ih => simp

theorem set_snoc_length {α : Type} (init : List α) (cur x : α) :
    (init ++ [cur]).set init.length x = init ++ [x] := by
  induction init with
  | nil => rfl
  | cons a as ih => simp

theorem deref_pointed {F : Type} (st : OBJImporter F) (init : List (OBJRawObject F))
    (cur : OBJRawObject F) (hl : st.list_of_objects = init ++ [cur])
    (hc : st.curr_ob = some init.length) : st.deref = some cur := by
  simp [OBJImporter.deref, hc, hl, getElem?_snoc_length]

theorem updateCurr_pointed {F : Type} (st : OBJImporter F) (init : List (OBJRawObject F))
    (cur : OBJRawObject F) (f : OBJRawObject F → OBJRawObject F)
    (hl : st.list_of_objects = init ++ [cur]) (hc : st.curr_ob = some init.length) :
    st.updateCurr f = some { st with list_of_objects := init ++ [f cur] } := by
  simp [OBJImporter.updateCurr, hc, hl, getElem?_snoc_length, set_snoc_length]

theorem updateCurr_unset {F : Type} (st : OBJImporter F)
    (f : OBJRawObject F → OBJRawObject F) (hc : st.curr_ob = none) :
    st.updateCurr f = none := by
  simp [OBJImporter.updateCurr, hc]

/-- An `o` line while an object is current: the offsets advance by the sizes of the
current object and a fresh object becomes current. -/
theorem processLine_o_pointed {F : Type} (fx : FloatExtract F) (st : OBJImporter F)
    (init : List (OBJRawObject F)) (cur : OBJRawObject F) (line : Line)
    (hl : st.list_of_objects = init ++ [cur]) (hc : st.curr_ob = some init.length)
    (hk : lineKey line = ['o']) :
    processLine fx st line =
      some { list_of_objects := (init ++ [cur]) ++ [OBJRawObject.fresh line],
             vertex_off := st.vertex_off + cur.vertices.length,
             uv_vertex_off := st.uv_vertex_off + cur.texture_vertices.length,
             curr_ob := some (init ++ [cur]).length } := by
  simp [processLine, hk, deref_pointed st init cur hl hc, hl]

/-- A line other than `o` while an object is current only updates that object. -/
theorem processLine_data_pointed {F : Type} (fx : FloatExtract F) (st : OBJImporter F)
    (init : List (OBJRawObject F)) (cur : OBJRawObject F) (line : Line)
    (hl : st.list_of_objects = init ++ [cur]) (hc : st.curr_ob = some init.length)
    (hk : lineKey line ≠ ['o']) :
    processLine fx st line =
      some { st with list_of_objects := init ++ [applyData fx st.vertex_off cur line] } := by
  unfold processLine applyData
  simp only [hk, if_false]
  split_ifs <;> first
    | exact updateCurr_pointed st init cur _ hl hc
    | (cases st; simp_all)

theorem parse_and_store_append {F : Type} (fx : FloatExtract F) (a b : List Line) :
    ∀ st : OBJImporter F,
      parse_and_store fx st (a ++ b) =
        (parse_and_store fx st a).bind (fun st' => parse_and_store fx st' b) := by
  induction a with
  | nil => intro st; rfl
  | cons l ls ih =>
    intro st
    simp only [List.cons_append, parse_and_store]
    cases processLine fx st l with
    | none => rfl
    | some st' => exact ih st'

/-! ## The object list in terms of the segments of the file -/

theorem extendObject_nil {F : Type} (fx : FloatExtract F) (off : Nat)
    (ob : OBJRawObject F) : extendObject fx off ob [] = ob := by
  cases ob; simp [extendObject]

theorem extendObject_append {F : Type} (fx : FloatExtract F) (off : Nat)
    (ob : OBJRawObject F) (a b : List Line) :
    extendObject fx off (extendObject fx off ob a) b = extendObject fx off ob (a ++ b) := by
  simp [extendObject, List.filter_append, List.map_append, List.sum_append, Nat.add_assoc]

theorem applyData_eq_extendObject {F : Type} (fx : FloatExtract F) (off : Nat)
    (ob : OBJRawObject F) (l : Line) :
    applyData fx off ob l = extendObject fx off ob [l] := by
  cases ob
  unfold applyData extendObject hasKey
  split_ifs with h1 h2 h3 h4 h5 <;> simp [List.filter, *]

theorem extendObject_cons {F : Type} (fx : FloatExtract F) (off : Nat)
    (ob : OBJRawObject F) (l : Line) (ls : List Line) :
    extendObject fx off (applyData fx off ob l) ls = extendObject fx off ob (l :: ls) := by
  rw [applyData_eq_extendObject, extendObject_append]; rfl

theorem extendObject_vertices_length {F : Type} (fx : FloatExtract F) (off : Nat)
    (ob : OBJRawObject F) (body : List Line) :
    (extendObject fx off ob body).vertices.length =
      ob.vertices.length + (body.filter (hasKey ['v'])).length := by
  simp [extendObject]

/-- From a state with a current object the run never fails, and the object list it
ends with is the old list with the current object extended by the lines in front of
the next `o` line, followed by the objects of the later segments. -/
theorem parse_and_store_pointed {F : Type} (fx : FloatExtract F) (ls : List Line) :
    ∀ (st : OBJImporter F) (init : List (OBJRawObject F)) (cur : OBJRawObject F),
      st.list_of_objects = init ++ [cur] → st.curr_ob = some init.length →
      ∃ st', parse_and_store fx st ls = some st' ∧
        st'.list_of_objects =
          init ++ extendObject fx st.vertex_off cur (splitObjects ls).1 ::
            buildObjects fx
              (st.vertex_off + cur.vertices.length +
                ((splitObjects ls).1.filter (hasKey ['v'])).length)
              (splitObjects ls).2 := by
  induction ls with
  | nil =>
    intro st init cur hl _
    exact ⟨st, rfl, by simp [splitObjects, buildObjects, extendObject_nil, hl]⟩
  | cons l ls ih =>
    intro st init cur hl hc
    by_cases hk : lineKey l = ['o']
    · obtain ⟨st', h1, h2⟩ := ih
          { list_of_objects := (init ++ [cur]) ++ [OBJRawObject.fresh l],
            vertex_off := st.vertex_off + cur.vertices.length,
            uv_vertex_off := st.uv_vertex_off + cur.texture_vertices.length,
            curr_ob := some (init ++ [cur]).length }
          (init ++ [cur]) (OBJRawObject.fresh l) rfl rfl
      refine ⟨st', ?_, ?_⟩
      · simp only [parse_and_store, processLine_o_pointed fx st init cur l hl hc hk]
        exact h1
      · rw [h2]
        simp [splitObjects, hk, buildObjects, extendObject_nil, OBJRawObject.fresh]
    · obtain ⟨st', h1, h2⟩ := ih { st with list_of_objects :=
          init ++ [applyData fx st.vertex_off cur l] } init
          (applyData fx st.vertex_off cur l) rfl hc
      refine ⟨st', ?_, ?_⟩
      · simp only [parse_and_store, processLine_data_pointed fx st init cur l hl hc hk]
        exact h1
      · rw [h2]
        simp only [splitObjects, hk, if_false, extendObject_cons]
        congr 3
        simp only [applyData_eq_extendObject, extendObject_vertices_length, List.filter_cons]
        split_ifs <;> (simp; try omega)

theorem processLine_current {F : Type} (fx : FloatExtract F) (st : OBJImporter F)
    (init : List (OBJRawObject F)) (cur : OBJRawObject F) (l : Line)
    (h : Current st init cur) :
    ∃ st' init' cur', processLine fx st l = some st' ∧ Current st' init' cur' := by
  obtain ⟨hl, hc, hv, hu⟩ := h
  by_cases hk : lineKey l = ['o']
  · refine ⟨_, init ++ [cur], OBJRawObject.fresh l,
      processLine_o_pointed fx st init cur l hl hc hk, rfl, rfl, ?_, ?_⟩
    · simp [hv]
    · simp [hu]
  · exact ⟨_, init, applyData fx st.vertex_off cur l,
      processLine_data_pointed fx st init cur l hl hc hk, rfl, hc, hv, hu⟩

theorem parse_and_store_current {F : Type} (fx : FloatExtract F) (ls : List Line) :
    ∀ (st : OBJImporter F) (init : List (OBJRawObject F)) (cur : OBJRawObject F),
      Current st init cur →
      ∃ st' init' cur', parse_and_store fx st ls = some st' ∧ Current st' init' cur' := by
  induction ls with
  | nil => intro st init cur h; exact ⟨st, init, cur, rfl, h⟩
  | cons l ls ih =>
    intro st init cur h
    obtain ⟨st1, init1, cur1, h1, hc1⟩ := processLine_current fx st init cur l h
    obtain ⟨st2, init2, cur2, h2, hc2⟩ := ih st1 init1 cur1 hc1
    exact ⟨st2, init2, cur2, by simp only [parse_and_store, h1]; exact h2, hc2⟩

/-- A line whose key is none of the six recognised keys changes nothing. -/
theorem processLine_other {F : Type} (fx : FloatExtract F) (st : OBJImporter F) (l : Line)
    (ho : lineKey l ≠ ['o']) (hd : isDataKey (lineKey l) = false) :
    processLine fx st l = some st := by
  simp only [isDataKey, Bool.or_eq_false_iff, decide_eq_false_iff_not] at hd
  obtain ⟨⟨⟨⟨h1, h2⟩, h3⟩, h4⟩, h5⟩ := hd
  simp [processLine, ho, h1, h2, h3, h4, h5]

/-- A line with a data key while `curr_ob` is unset dereferences the unset pointer. -/
theorem processLine_data_unset {F : Type} (fx : FloatExtract F) (st : OBJImporter F)
    (l : Line) (hc : st.curr_ob = none) (hd : isDataKey (lineKey l) = true) :
    processLine fx st l = none := by
  simp only [isDataKey, Bool.or_eq_true, decide_eq_true_eq] at hd
  unfold processLine
  simp only [updateCurr_unset st _ hc]
  rcases hd with (((h | h) | h) | h) | h <;> simp [h]

/-- The first `o` line of a run started on the empty list. -/
theorem processLine_o_init {F : Type} (fx : FloatExtract F) (l : Line)
    (hk : lineKey l = ['o']) :
    processLine fx (OBJImporter.init : OBJImporter F) l =
      some { list_of_objects := [OBJRawObject.fresh l], vertex_off := 0,
             uv_vertex_off := 0, curr_ob := some 0 } := by
  simp [processLine, hk, OBJImporter.init]

/-- A run started on the empty list fails exactly when a data line comes before the
first `o` line; otherwise its object list is made of the objects of the segments of
the file, and it ends either in the initial state or with a current object. -/
theorem parse_and_store_init {F : Type} (fx : FloatExtract F) (ls : List Line) :
    (dataBeforeO ls = true → parse_and_store fx (OBJImporter.init : OBJImporter F) ls = none) ∧
    (dataBeforeO ls = false →
      ∃ st, parse_and_store fx (OBJImporter.init : OBJImporter F) ls = some st ∧
        st.list_of_objects = buildObjects fx 0 (splitObjects ls).2 ∧
        ((st = OBJImporter.init ∧ (splitObjects ls).2 = []) ∨
          ∃ init cur, Current st init cur)) := by
  induction ls with
  | nil =>
    refine ⟨by simp [dataBeforeO], fun _ => ⟨OBJImporter.init, rfl, rfl, Or.inl ⟨rfl, rfl⟩⟩⟩
  | cons l ls ih =>
    by_cases hk : lineKey l = ['o']
    · refine ⟨by simp [dataBeforeO, hk], fun _ => ?_⟩
      have hcur : Current
          ({ list_of_objects := [OBJRawObject.fresh l], vertex_off := 0,
             uv_vertex_off := 0, curr_ob := some 0 } : OBJImporter F)
          [] (OBJRawObject.fresh l) :=
        ⟨rfl, rfl, rfl, rfl⟩
      obtain ⟨st', h1, h2⟩ := parse_and_store_pointed fx ls _ [] (OBJRawObject.fresh l)
        hcur.1 hcur.2.1
      obtain ⟨st'', init', cur', h3, h4⟩ := parse_and_store_current fx ls _ _ _ hcur
      rw [h1] at h3
      cases h3
      refine ⟨st', ?_, ?_, Or.inr ⟨init', cur', h4⟩⟩
      · simp only [parse_and_store, processLine_o_init fx l hk]; exact h1
      · rw [h2]; simp [splitObjects, hk, buildObjects, OBJRawObject.fresh]
    · by_cases hd : isDataKey (lineKey l) = true
      · refine ⟨fun _ => ?_, by simp [dataBeforeO, hk, hd]⟩
        simp only [parse_and_store,
          processLine_data_unset fx (OBJImporter.init : OBJImporter F) l rfl hd]
      · have hd' : isDataKey (lineKey l) = false := by simpa using hd
        have hstep := processLine_other fx (OBJImporter.init : OBJImporter F) l hk hd'
        have hdb : dataBeforeO (l :: ls) = dataBeforeO ls := by
          simp [dataBeforeO, hk, hd']
        have hsp : (splitObjects (l :: ls)).2 = (splitObjects ls).2 := by
          simp [splitObjects, hk]
        rw [hdb, hsp]
        simpa only [parse_and_store, hstep] using ih

theorem stateOf_of_current {F : Type} (st : OBJImporter F) (init : List (OBJRawObject F))
    (cur : OBJRawObject F) (h : Current st init cur) : st = stateOf (init ++ [cur]) := by
  obtain ⟨hl, hc, hv, hu⟩ := h
  cases st
  simp only [stateOf] at *
  subst hl hc hv hu
  simp

/-- The whole run on a file in which no data line comes before the first `o` line. -/
theorem parse_and_store_eq {F : Type} (fx : FloatExtract F) (ls : List Line)
    (h : dataBeforeO ls = false) :
    parse_and_store fx (OBJImporter.init : OBJImporter F) ls =
      some (stateOf (buildObjects fx 0 (splitObjects ls).2)) := by
  obtain ⟨st, h1, h2, h3⟩ := (parse_and_store_init fx ls).2 h
  rw [h1]
  rcases h3 with ⟨h3, h4⟩ | ⟨init, cur, h3⟩
  · rw [h3, h4]; rfl
  · rw [← h2, h3.1]; exact congrArg some (stateOf_of_current st init cur h3)

theorem splitObjects_append {pre : List Line} (hpre : ∀ l ∈ pre, lineKey l ≠ ['o'])
    (rest : List Line) :
    splitObjects (pre ++ rest) = (pre ++ (splitObjects rest).1, (splitObjects rest).2) := by
  induction pre with
  | nil => rfl
  | cons l ls ih =>
    have hl : lineKey l ≠ ['o'] := hpre l (List.mem_cons_self _ _)
    have ih' := ih (fun m hm => hpre m (List.mem_cons_of_mem _ hm))
    simp [splitObjects, hl, ih']

theorem splitObjects_segLines {segs : List (Line × List Line)}
    (h : ∀ s ∈ segs, lineKey s.1 = ['o'] ∧ ∀ l ∈ s.2, lineKey l ≠ ['o']) :
    splitObjects (segLines segs) = ([], segs) := by
  induction segs with
  | nil => rfl
  | cons s rest ih =>
    have hs := h s (List.mem_cons_self _ _)
    have ih' := ih (fun t ht => h t (List.mem_cons_of_mem _ ht))
    simp [segLines, splitObjects, hs.1, splitObjects_append hs.2, ih']

/-- The cut of a segmented file is the segmentation it was built from. -/
theorem splitObjects_segmented {pre : List Line} {segs : List (Line × List Line)}
    (h : Segmented pre segs) : splitObjects (pre ++ segLines segs) = (pre, segs) := by
  rw [splitObjects_append h.1, splitObjects_segLines h.2]; simp

theorem dataBeforeO_append {pre : List Line} (hpre : ∀ l ∈ pre, lineKey l ≠ ['o'])
    (hd : ∀ l ∈ pre, isDataKey (lineKey l) = false) (rest : List Line) :
    dataBeforeO (pre ++ rest) = dataBeforeO rest := by
  induction pre with
  | nil => rfl
  | cons l ls ih =>
    have hl : lineKey l ≠ ['o'] := hpre l (List.mem_cons_self _ _)
    have hl' := hd l (List.mem_cons_self _ _)
    have ih' := ih (fun m hm => hpre m (List.mem_cons_of_mem _ hm))
      (fun m hm => hd m (List.mem_cons_of_mem _ hm))
    simp [dataBeforeO, hl, hl', ih']

theorem dataBeforeO_segLines {segs : List (Line × List Line)}
    (h : ∀ s ∈ segs, lineKey s.1 = ['o'] ∧ ∀ l ∈ s.2, lineKey l ≠ ['o']) :
    dataBeforeO (segLines segs) = false := by
  cases segs with
  | nil => rfl
  | cons s rest => simp [segLines, dataBeforeO, (h s (List.mem_cons_self _ _)).1]

theorem dataBeforeO_segmented {pre : List Line} {segs : List (Line × List Line)}
    (h : Segmented pre segs) (hd : ∀ l ∈ pre, isDataKey (lineKey l) = false) :
    dataBeforeO (pre ++ segLines segs) = false := by
  rw [dataBeforeO_append h.1 hd, dataBeforeO_segLines h.2]

/-- The run on a segmented file without data lines in front of the first `o` line. -/
theorem parse_and_store_segmented {F : Type} (fx : FloatExtract F) {pre : List Line}
    {segs : List (Line × List Line)} (h : Segmented pre segs)
    (hd : ∀ l ∈ pre, isDataKey (lineKey l) = false) :
    parse_and_store fx (OBJImporter.init : OBJImporter F) (pre ++ segLines segs) =
      some (stateOf (buildObjects fx 0 segs)) := by
  rw [parse_and_store_eq fx _ (dataBeforeO_segmented h hd), splitObjects_segmented h]

theorem buildObjects_length {F : Type} (fx : FloatExtract F)
    (segs : List (Line × List Line)) :
    ∀ off, (buildObjects fx off segs : List (OBJRawObject F)).length = segs.length := by
  induction segs with
  | nil => intro off; rfl
  | cons s rest ih => intro off; simp [buildObjects, ih]

/-- The object built for segment `k` is the fresh object of its `o` line extended by
its body, read with the offset that counts the `v` lines of the segments before it. -/
theorem buildObjects_getElem? {F : Type} (fx : FloatExtract F)
    (segs : List (Line × List Line)) :
    ∀ (off k : Nat), (buildObjects fx off segs : List (OBJRawObject F))[k]? =
      (segs[k]?).map (fun s =>
        extendObject fx (off + vertexCount (segs.take k)) (OBJRawObject.fresh s.1) s.2) := by
  induction segs with
  | nil => intro off k; simp [buildObjects]
  | cons s rest ih =>
    intro off k
    cases k with
    | zero => simp [buildObjects, vertexCount]
    | succ k =>
      simp only [buildObjects, List.getElem?_cons_succ, ih, List.take_succ_cons]
      simp [vertexCount, Nat.add_assoc]

/-! ## Tokens and integer fields -/

theorem isdigit_not_isspace {c : Char} (h : isdigit c = true) : isspace c = false := by
  simp only [isdigit, Bool.and_eq_true, decide_eq_true_eq] at h
  simp only [isspace, Bool.or_eq_false_iff, beq_eq_false_iff_ne, Bool.and_eq_false_imp,
    decide_eq_true_eq, decide_eq_false_iff_not]
  omega

theorem isspace_not_isdigit {c : Char} (h : isspace c = true) : isdigit c = false := by
  cases hd : isdigit c with
  | false => rfl
  | true => rw [isdigit_not_isspace hd] at h; cases h

theorem isdigit_ne_sign {c : Char} (h : isdigit c = true) : c ≠ '-' ∧ c ≠ '+' := by
  constructor <;> (rintro rfl; revert h; decide)

theorem skipws_append {sep : List Char} (h : ∀ c ∈ sep, isspace c = true) (y : List Char) :
    skipws (sep ++ y) = skipws y := by
  induction sep with
  | nil => rfl
  | cons c cs ih =>
    have hc := h c (List.mem_cons_self _ _)
    have ih' := ih (fun d hd => h d (List.mem_cons_of_mem _ hd))
    simpa [skipws, hc] using ih'

theorem skipws_cons_of_not {c : Char} (h : isspace c = false) (y : List Char) :
    skipws (c :: y) = c :: y := by
  simp [skipws, h]

theorem skipws_of_all {s : List Char} (h : ∀ c ∈ s, isspace c = true) : skipws s = [] := by
  simpa using skipws_append h []

theorem takeWhile_digits_append {ds : List Char} (h : ∀ c ∈ ds, isdigit c = true)
    {rest : List Char} (hr : ∀ c, rest.head? = some c → isdigit c = false) :
    (ds ++ rest).takeWhile isdigit = ds ∧ (ds ++ rest).dropWhile isdigit = rest := by
  induction ds with
  | nil =>
    cases rest with
    | nil => simp
    | cons r rs => simp [hr r rfl]
  | cons c cs ih =>
    have hc := h c (List.mem_cons_self _ _)
    have ih' := ih (fun d hd => h d (List.mem_cons_of_mem _ hd))
    simp [hc, ih'.1, ih'.2]

/-- Reading an integer field: the separator is skipped, the value is that of the
text, and the unread remainder starts behind the text. -/
theorem extractInt_decimal {sep t rest : List Char} {i : Int}
    (hsep : ∀ c ∈ sep, isspace c = true) (hdec : IsDecimal t i)
    (hlo : INT_MIN ≤ i) (hhi : i ≤ INT_MAX)
    (hrest : ∀ c, rest.head? = some c → isdigit c = false) :
    extractInt (sep ++ (t ++ rest)) = some (i, rest) := by
  obtain ⟨ds, hne, hds, ht⟩ := hdec
  obtain ⟨d, ds', rfl⟩ := List.exists_cons_of_ne_nil hne
  have hd : isdigit d = true := hds d (List.mem_cons_self _ _)
  have htd := takeWhile_digits_append hds hrest
  have hlo' : ¬ i < INT_MIN := not_lt.mpr hlo
  have hhi' : ¬ INT_MAX < i := not_lt.mpr hhi
  rcases ht with ⟨rfl, hi⟩ | ⟨rfl, hi⟩ | ⟨rfl, hi⟩
  · have hsk : skipws (sep ++ (d :: ds' ++ rest)) = d :: ds' ++ rest := by
      rw [skipws_append hsep]; exact skipws_cons_of_not (isdigit_not_isspace hd) _
    have hss : splitSign (d :: ds' ++ rest) = (false, d :: ds' ++ rest) := by
      simp [splitSign, (isdigit_ne_sign hd).1, (isdigit_ne_sign hd).2]
    simp only [extractInt, hsk, hss, htd.1, htd.2, signedValue]
    simp [← hi, hlo', hhi']
  · have hsk : skipws (sep ++ ('+' :: (d :: ds') ++ rest)) = '+' :: (d :: ds') ++ rest := by
      rw [skipws_append hsep]; exact skipws_cons_of_not (by decide) _
    have hss : splitSign ('+' :: (d :: ds') ++ rest) = (false, d :: ds' ++ rest) := by
      simp [splitSign]
    simp only [extractInt, hsk, hss, htd.1, htd.2, signedValue]
    simp [← hi, hlo', hhi']
  · have hsk : skipws (sep ++ ('-' :: (d :: ds') ++ rest)) = '-' :: (d :: ds') ++ rest := by
      rw [skipws_append hsep]; exact skipws_cons_of_not (by decide) _
    have hss : splitSign ('-' :: (d :: ds') ++ rest) = (true, d :: ds' ++ rest) := by
      simp [splitSign]
    simp only [extractInt, hsk, hss, htd.1, htd.2, signedValue]
    simp [← hi, hlo', hhi']

/-- No integer can be read from text that, after whitespace, is empty or starts with
a character that is neither a sign nor a digit. -/
theorem extractInt_none_of_head {s : List Char}
    (h : ∀ c, (skipws s).head? = some c → isdigit c = false ∧ c ≠ '-' ∧ c ≠ '+') :
    extractInt s = none := by
  unfold extractInt
  cases hs : skipws s with
  | nil => simp [splitSign]
  | cons c u =>
    obtain ⟨h1, h2, h3⟩ := h c (by rw [hs]; rfl)
    simp [splitSign, h1, h2, h3]

theorem extractInt_range {s rest : List Char} {i : Int} (h : extractInt s = some (i, rest)) :
    INT_MIN ≤ i ∧ i ≤ INT_MAX := by
  unfold extractInt at h
  simp only at h
  split_ifs at h with h1 h2
  simp only [Option.some.injEq, Prod.mk.injEq] at h
  rw [← h.1]
  exact ⟨not_lt.mp (fun hc => h2 (Or.inl hc)), not_lt.mp (fun hc => h2 (Or.inr hc))⟩

theorem wrapInt32_of_range {x : Int} (hlo : INT_MIN ≤ x) (hhi : x ≤ INT_MAX) :
    wrapInt32 x = x := by
  unfold INT_MIN at hlo
  unfold INT_MAX at hhi
  unfold wrapInt32
  omega

/-- Without overflow the stored corner is `i - 1 - off`. -/
theorem cornerOf_of_range {off : Nat} {i : Int} (hlo : INT_MIN ≤ i - 1 - (off : Int))
    (hhi : i ≤ INT_MAX) : cornerOf off i = { vert_index := i - 1 - (off : Int) } := by
  have h1 : wrapInt32 (i - 1) = i - 1 := by
    apply wrapInt32_of_range <;> (unfold INT_MIN INT_MAX at *; omega)
  have h2 : wrapInt32 (i - 1 - (off : Int)) = i - 1 - (off : Int) := by
    apply wrapInt32_of_range <;> (unfold INT_MIN INT_MAX at *; omega)
  simp [cornerOf, h1, h2]

theorem readCorners_eq_map (off : Nat) (fuel : Nat) :
    ∀ s, readCorners off fuel s = (readIndices fuel s).map (cornerOf off) := by
  induction fuel with
  | zero => intro s; rfl
  | succ n ih =>
    intro s
    simp only [readCorners, readIndices]
    cases extractInt s with
    | none => rfl
    | some p => simp [ih]

theorem readFace_eq_map (off : Nat) (l : Line) :
    readFace off (afterToken l) = (faceIndices l).map (cornerOf off) :=
  readCorners_eq_map off _ _

theorem readIndices_range (fuel : Nat) :
    ∀ s, ∀ i ∈ readIndices fuel s, INT_MIN ≤ i ∧ i ≤ INT_MAX := by
  induction fuel with
  | zero => intro s i hi; simp [readIndices] at hi
  | succ n ih =>
    intro s i hi
    simp only [readIndices] at hi
    cases he : extractInt s with
    | none => simp [he] at hi
    | some p =>
      obtain ⟨j, rest⟩ := p
      simp only [he, List.mem_cons] at hi
      rcases hi with rfl | hi
      · exact extractInt_range he
      · exact ih rest i hi

theorem skipws_length_le (s : List Char) : (skipws s).length ≤ s.length :=
  (List.dropWhile_sublist isspace).length_le

theorem splitSign_length_le (t : List Char) : (splitSign t).2.length ≤ t.length := by
  cases t with
  | nil => simp [splitSign]
  | cons c u =>
    simp only [splitSign]
    split_ifs <;> simp

/-- A successful integer extraction consumes at least one character. -/
theorem extractInt_length {s rest : List Char} {i : Int}
    (h : extractInt s = some (i, rest)) : rest.length < s.length := by
  unfold extractInt at h
  simp only at h
  split_ifs at h with h1 h2
  simp only [Option.some.injEq, Prod.mk.injEq] at h
  have hsum := congrArg List.length
    (List.takeWhile_append_dropWhile isdigit (splitSign (skipws s)).2)
  rw [List.length_append] at hsum
  have hpos : 0 < (List.takeWhile isdigit (splitSign (skipws s)).2).length :=
    List.length_pos.mpr h1
  have h3 := splitSign_length_le (skipws s)
  have h4 := skipws_length_le s
  rw [← h.2]
  omega

/-- The face loop does not depend on the fuel once the fuel exceeds the length of
the text: the loop of the source terminates with this result. -/
theorem readCorners_fuel (off : Nat) (fuel : Nat) :
    ∀ (s : List Char) (fuel' : Nat), s.length < fuel → s.length < fuel' →
      readCorners off fuel s = readCorners off fuel' s := by
  induction fuel with
  | zero => intro s fuel' h; omega
  | succ n ih =>
    intro s fuel' h h'
    cases fuel' with
    | zero => omega
    | succ m =>
      simp only [readCorners]
      cases he : extractInt s with
      | none => rfl
      | some p =>
        obtain ⟨i, rest⟩ := p
        have hl := extractInt_length he
        simp only
        rw [ih rest m (by omega) (by omega)]

theorem lineKey_f {rest : List Char} (h : ∀ c, rest.head? = some c → isspace c = true) :
    lineKey ('f' :: rest) = ['f'] ∧ afterToken ('f' :: rest) = rest := by
  have hf : isspace 'f' = false := by decide
  cases rest with
  | nil => simp [lineKey, tokenOf, afterToken, skipws, hf]
  | cons c cs => simp [lineKey, tokenOf, afterToken, skipws, hf, h c rfl]

theorem head?_fieldsText {fields : List (List Char × List Char × Int)} {tail : List Char}
    (hf : IntFields fields) (ht : ∀ c ∈ tail, isspace c = true) :
    ∀ c, (fieldsText fields ++ tail).head? = some c → isspace c = true := by
  intro c hc
  cases fields with
  | nil =>
    cases tail with
    | nil => simp [fieldsText] at hc
    | cons d ds =>
      simp only [fieldsText, List.nil_append, List.head?_cons, Option.some.injEq] at hc
      exact hc ▸ ht d (List.mem_cons_self _ _)
  | cons x rest =>
    obtain ⟨hne, hws, -⟩ := hf x (List.mem_cons_self _ _)
    obtain ⟨d, ds, hx⟩ := List.exists_cons_of_ne_nil hne
    simp only [fieldsText, hx, List.cons_append, List.head?_cons, Option.some.injEq] at hc
    exact hc ▸ hws d (by rw [hx]; exact List.mem_cons_self _ _)

theorem fieldsText_length {fields : List (List Char × List Char × Int)}
    (hf : IntFields fields) : fields.length ≤ (fieldsText fields).length := by
  induction fields with
  | nil => simp
  | cons x rest ih =>
    obtain ⟨hne, -, -⟩ := hf x (List.mem_cons_self _ _)
    have ih' := ih (fun y hy => hf y (List.mem_cons_of_mem _ hy))
    have hpos : 0 < x.1.length := List.length_pos.mpr hne
    simp only [fieldsText, List.length_append, List.length_cons]
    omega

/-- The face loop on whitespace-separated integers that fit an `int` stores one
corner per field. -/
theorem readCorners_fields (off : Nat) (tail : List Char)
    (ht : ∀ c ∈ tail, isspace c = true) :
    ∀ (fields : List (List Char × List Char × Int)) (fuel : Nat), IntFields fields →
      (∀ x ∈ fields, INT_MIN ≤ x.2.2 ∧ x.2.2 ≤ INT_MAX) → fields.length < fuel →
      readCorners off fuel (fieldsText fields ++ tail) =
        fields.map (fun x => cornerOf off x.2.2) := by
  intro fields
  induction fields with
  | nil =>
    intro fuel _ _ hfuel
    obtain ⟨n, rfl⟩ := Nat.exists_eq_succ_of_ne_zero (Nat.not_eq_zero_of_lt hfuel)
    have hnone : extractInt tail = none :=
      extractInt_none_of_head (by rw [skipws_of_all ht]; simp)
    simp [readCorners, fieldsText, hnone]
  | cons x rest ih =>
    intro fuel hf hr hfuel
    obtain ⟨n, rfl⟩ := Nat.exists_eq_succ_of_ne_zero (Nat.not_eq_zero_of_lt hfuel)
    obtain ⟨-, hws, hdec⟩ := hf x (List.mem_cons_self _ _)
    obtain ⟨hlo, hhi⟩ := hr x (List.mem_cons_self _ _)
    have hf' : IntFields rest := fun y hy => hf y (List.mem_cons_of_mem _ hy)
    have hhead : ∀ c, (fieldsText rest ++ tail).head? = some c → isdigit c = false :=
      fun c hc => isspace_not_isdigit (head?_fieldsText hf' ht c hc)
    have hex : extractInt (fieldsText (x :: rest) ++ tail) =
        some (x.2.2, fieldsText rest ++ tail) := by
      simp only [fieldsText, List.append_assoc]
      exact extractInt_decimal hws hdec hlo hhi hhead
    have hlen : rest.length < n := by simpa using hfuel
    simp only [readCorners, hex, List.map_cons]
    rw [ih n hf' (fun y hy => hr y (List.mem_cons_of_mem _ hy)) hlen]

/-- A state reached from the initial state is the initial state or has a current
object. -/
theorem reached_cases {F : Type} (fx : FloatExtract F) (ls : List Line) (st : OBJImporter F)
    (h : parse_and_store fx (OBJImporter.init : OBJImporter F) ls = some st) :
    st = OBJImporter.init ∨ ∃ init cur, Current st init cur := by
  cases hd : dataBeforeO ls with
  | true => rw [(parse_and_store_init fx ls).1 hd] at h; cases h
  | false =>
    obtain ⟨st', h1, -, h3⟩ := (parse_and_store_init fx ls).2 hd
    rw [h1] at h
    cases h
    exact h3.imp (fun h => h.1) id

theorem reached_current {F : Type} (fx : FloatExtract F) (ls : List Line) (st : OBJImporter F)
    (objs : List (OBJRawObject F)) (cur : OBJRawObject F)
    (h : parse_and_store fx (OBJImporter.init : OBJImporter F) ls = some st)
    (hl : st.list_of_objects = objs ++ [cur]) : Current st objs cur := by
  rcases reached_cases fx ls st h with rfl | ⟨init, cur', hc⟩
  · simp [OBJImporter.init] at hl
  · have heq : init ++ [cur'] = objs ++ [cur] := hc.1.symm.trans hl
    obtain ⟨h1, h2⟩ := List.append_inj' heq rfl
    cases h2
    subst h1
    exact hc

/-- The effect of an `f` line while an object is current. -/
theorem processLine_f_pointed {F : Type} (fx : FloatExtract F) (st : OBJImporter F)
    (init : List (OBJRawObject F)) (cur : OBJRawObject F) (line : Line)
    (hl : st.list_of_objects = init ++ [cur]) (hc : st.curr_ob = some init.length)
    (hk : lineKey line = ['f']) :
    processLine fx st line =
      some { st with list_of_objects := init ++
        [{ cur with
            face_elements := cur.face_elements ++ [readFace st.vertex_off (afterToken line)],
            tot_loop := cur.tot_loop + (readFace st.vertex_off (afterToken line)).length }] } := by
  rw [processLine_data_pointed fx st init cur line hl hc (by rw [hk]; decide)]
  simp [applyData, hk]

theorem parse_and_store_snoc {F : Type} (fx : FloatExtract F) (pre : List Line) (l : Line)
    (st : OBJImporter F)
    (h : parse_and_store fx (OBJImporter.init : OBJImporter F) pre = some st) :
    parse_and_store fx (OBJImporter.init : OBJImporter F) (pre ++ [l]) =
      processLine fx st l := by
  rw [parse_and_store_append, h]
  simp only [Option.bind, parse_and_store]
  cases processLine fx st l <;> rfl

theorem isDataKey_iff (k : List Char) : isDataKey k = true ↔ k ∈ dataKeys := by
  simp [isDataKey, dataKeys, or_assoc]

theorem isDataKey_false_iff (k : List Char) : isDataKey k = false ↔ k ∉ dataKeys := by
  rw [← isDataKey_iff]; simp

theorem dataBeforeO_iff (ls : List Line) :
    dataBeforeO ls = true ↔
      ∃ pre l post, ls = pre ++ l :: post ∧ lineKey l ∈ dataKeys ∧
        ∀ m ∈ pre, lineKey m ≠ ['o'] := by
  induction ls with
  | nil => simp [dataBeforeO]
  | cons a ls ih =>
    constructor
    · intro h
      simp only [dataBeforeO] at h
      split_ifs at h with h1 h2
      · exact ⟨[], a, ls, rfl, (isDataKey_iff _).mp h2, by simp⟩
      · obtain ⟨pre, l, post, he, hd, hp⟩ := ih.mp h
        refine ⟨a :: pre, l, post, by simp [he], hd, ?_⟩
        intro m hm
        rcases List.mem_cons.mp hm with rfl | hm
        · exact h1
        · exact hp m hm
    · rintro ⟨pre, l, post, he, hd, hp⟩
      cases pre with
      | nil =>
        simp only [List.nil_append, List.cons.injEq] at he
        obtain ⟨rfl, -⟩ := he
        have ho : lineKey a ≠ ['o'] := by
          intro hc; rw [hc] at hd; revert hd; decide
        simp [dataBeforeO, ho, (isDataKey_iff _).mpr hd]
      | cons p pre' =>
        simp only [List.cons_append, List.cons.injEq] at he
        obtain ⟨rfl, he⟩ := he
        have ho : lineKey a ≠ ['o'] := hp a (List.mem_cons_self _ _)
        have hrec : dataBeforeO ls = true :=
          ih.mpr ⟨pre', l, post, he, hd, fun m hm => hp m (List.mem_cons_of_mem _ hm)⟩
        simp only [dataBeforeO, ho, if_false, hrec]
        split_ifs <;> rfl

theorem parse_and_store_none_iff {F : Type} (fx : FloatExtract F) (ls : List Line) :
    parse_and_store fx (OBJImporter.init : OBJImporter F) ls = none ↔
      dataBeforeO ls = true := by
  constructor
  · intro h
    cases hd : dataBeforeO ls with
    | true => rfl
    | false =>
      obtain ⟨st, h1, -⟩ := (parse_and_store_init fx ls).2 hd
      rw [h1] at h; cases h
  · exact (parse_and_store_init fx ls).1

/-- On a face line the loop stops at a `/` behind the first index: the face is the
single corner of that index. -/
theorem readFace_slash (off : Nat) {sep t : List Char} {i : Int} (rest : List Char)
    (hws : ∀ c ∈ sep, isspace c = true) (hdec : IsDecimal t i)
    (hlo : INT_MIN ≤ i) (hhi : i ≤ INT_MAX) :
    readFace off (sep ++ (t ++ '/' :: rest)) = [cornerOf off i] := by
  have h1 : extractInt (sep ++ (t ++ '/' :: rest)) = some (i, '/' :: rest) :=
    extractInt_decimal hws hdec hlo hhi (by intro c hc; cases hc; decide)
  have h2 : extractInt ('/' :: rest) = none := by
    apply extractInt_none_of_head
    rw [skipws_cons_of_not (by decide)]
    intro c hc; cases hc; decide
  have hlen := extractInt_length h1
  obtain ⟨n, hn⟩ : ∃ n, (sep ++ (t ++ '/' :: rest)).length = n + 1 :=
    Nat.exists_eq_succ_of_ne_zero (Nat.not_eq_zero_of_lt hlen)
  simp [readFace, hn, readCorners, h1, h2]

/-- The face of a line that holds a single index and nothing behind it. -/
theorem readFace_single (off : Nat) {sep t : List Char} {i : Int}
    (hws : ∀ c ∈ sep, isspace c = true) (hdec : IsDecimal t i)
    (hlo : INT_MIN ≤ i) (hhi : i ≤ INT_MAX) :
    readFace off (sep ++ t) = [cornerOf off i] := by
  have h1 : extractInt (sep ++ (t ++ [])) = some (i, []) :=
    extractInt_decimal hws hdec hlo hhi (by intro c hc; cases hc)
  rw [List.append_nil] at h1
  have h2 : extractInt [] = none := by
    apply extractInt_none_of_head
    intro c hc; cases hc
  have hlen := extractInt_length h1
  obtain ⟨n, hn⟩ : ∃ n, (sep ++ t).length = n + 1 :=
    Nat.exists_eq_succ_of_ne_zero (Nat.not_eq_zero_of_lt hlen)
  simp [readFace, hn, readCorners, h1, h2]

theorem readFace_none (off : Nat) {s : List Char} (h : extractInt s = none) :
    readFace off s = [] := by
  simp [readFace, readCorners, h]

theorem head?_sep {sep : List Char} (hne : sep ≠ []) (hws : ∀ c ∈ sep, isspace c = true)
    (y : List Char) : ∀ c, (sep ++ y).head? = some c → isspace c = true := by
  obtain ⟨d, ds, rfl⟩ := List.exists_cons_of_ne_nil hne
  intro c hc
  simp only [List.cons_append, List.head?_cons, Option.some.injEq] at hc
  exact hc ▸ hws d (List.mem_cons_self _ _)

/-! ## Deleting the lines of one key -/

theorem filter_filter_of_imp {α : Type} {p q : α → Bool}
    (h : ∀ a, p a = true → q a = true) (l : List α) :
    (l.filter q).filter p = l.filter p := by
  induction l with
  | nil => rfl
  | cons a as ih =>
    by_cases hq : q a = true
    · by_cases hp : p a = true <;> simp [List.filter_cons, hq, hp, ih]
    · have hp : ¬ p a = true := fun hp => hq (h a hp)
      simp [List.filter_cons, hq, hp, ih]

theorem filter_filter_of_not {α : Type} {p q : α → Bool}
    (h : ∀ a, p a = true → q a = false) (l : List α) :
    (l.filter q).filter p = [] := by
  induction l with
  | nil => rfl
  | cons a as ih =>
    by_cases hq : q a = true
    · have hp : ¬ p a = true := fun hp => by rw [h a hp] at hq; cases hq
      simp [List.filter_cons, hq, hp, ih]
    · simp [List.filter_cons, hq, ih]

theorem withoutKey_of_hasKey {k k' : List Char} (hne : k ≠ k') (l : Line)
    (h : hasKey k l = true) : withoutKey k' l = true := by
  simp only [hasKey, decide_eq_true_eq] at h
  simp [withoutKey, hasKey, h, hne]

theorem withoutKey_self {k : List Char} (l : Line) (h : hasKey k l = true) :
    withoutKey k l = false := by
  simp [withoutKey, h]

theorem filter_keep {k k' : List Char} (hne : k ≠ k') (body : List Line) :
    (body.filter (withoutKey k')).filter (hasKey k) = body.filter (hasKey k) :=
  filter_filter_of_imp (withoutKey_of_hasKey hne) body

theorem filter_drop (k : List Char) (body : List Line) :
    (body.filter (withoutKey k)).filter (hasKey k) = [] :=
  filter_filter_of_not (fun l h => withoutKey_self l h) body

theorem segLines_filterBodies (p : Line → Bool) {segs : List (Line × List Line)}
    (hp : ∀ s ∈ segs, p s.1 = true) :
    (segLines segs).filter p = segLines (filterBodies p segs) := by
  induction segs with
  | nil => rfl
  | cons s rest ih =>
    have hs := hp s (List.mem_cons_self _ _)
    have ih' := ih (fun t ht => hp t (List.mem_cons_of_mem _ ht))
    simp only [filterBodies] at ih'
    simp [segLines, filterBodies, List.filter_cons, hs, ih']

theorem segmented_filter {p : Line → Bool} {pre : List Line}
    {segs : List (Line × List Line)} (h : Segmented pre segs) :
    Segmented (pre.filter p) (filterBodies p segs) := by
  refine ⟨fun l hl => h.1 l (List.mem_filter.mp hl).1, ?_⟩
  intro s hs
  simp only [filterBodies, List.mem_map] at hs
  obtain ⟨t, ht, rfl⟩ := hs
  exact ⟨(h.2 t ht).1, fun l hl => (h.2 t ht).2 l (List.mem_filter.mp hl).1⟩

/-- Deleting lines that are no `o` lines from a segmented file deletes them from the
lines in front and from the bodies. -/
theorem filter_segmented {p : Line → Bool} (hp : ∀ l, lineKey l = ['o'] → p l = true)
    {pre : List Line} {segs : List (Line × List Line)} (h : Segmented pre segs) :
    (pre ++ segLines segs).filter p = pre.filter p ++ segLines (filterBodies p segs) := by
  rw [List.filter_append, segLines_filterBodies p (fun s hs => hp s.1 (h.2 s hs).1)]

theorem stateOf_map {F : Type} (g : OBJRawObject F → OBJRawObject F)
    (hv : ∀ ob, (g ob).vertices = ob.vertices)
    (ht : ∀ ob, (g ob).texture_vertices = ob.texture_vertices)
    (objs : List (OBJRawObject F)) :
    stateOf (objs.map g) = { stateOf objs with list_of_objects := objs.map g } := by
  have h1 : (fun ob => ob.vertices.length) ∘ g = fun ob : OBJRawObject F => ob.vertices.length :=
    funext (fun ob => by simp [hv])
  have h2 : (fun ob => ob.texture_vertices.length) ∘ g =
      fun ob : OBJRawObject F => ob.texture_vertices.length :=
    funext (fun ob => by simp [ht])
  simp only [stateOf, ← List.map_dropLast, List.map_map, h1, h2, List.length_map,
    List.isEmpty_eq_true, List.map_eq_nil_iff]
  cases objs <;> simp

theorem extendObject_without_vn {F : Type} (fx : FloatExtract F) (off : Nat)
    (ob : OBJRawObject F) (body : List Line) :
    extendObject fx off ob (body.filter (withoutKey ['v', 'n'])) =
      { extendObject fx off ob body with tot_normals := ob.tot_normals } := by
  simp only [extendObject, filter_drop,
    filter_keep (show ['v'] ≠ ['v', 'n'] by decide),
    filter_keep (show ['v', 't'] ≠ ['v', 'n'] by decide),
    filter_keep (show ['f'] ≠ ['v', 'n'] by decide),
    filter_keep (show ['u', 's', 'e', 'm', 't', 'l'] ≠ ['v', 'n'] by decide)]
  simp

theorem extendObject_without_usemtl {F : Type} (fx : FloatExtract F) (off : Nat)
    (ob : OBJRawObject F) (body : List Line) :
    extendObject fx off ob (body.filter (withoutKey ['u', 's', 'e', 'm', 't', 'l'])) =
      { extendObject fx off ob body with material_name := ob.material_name } := by
  simp only [extendObject, filter_drop,
    filter_keep (show ['v'] ≠ ['u', 's', 'e', 'm', 't', 'l'] by decide),
    filter_keep (show ['v', 't'] ≠ ['u', 's', 'e', 'm', 't', 'l'] by decide),
    filter_keep (show ['f'] ≠ ['u', 's', 'e', 'm', 't', 'l'] by decide),
    filter_keep (show ['v', 'n'] ≠ ['u', 's', 'e', 'm', 't', 'l'] by decide)]
  simp

theorem buildObjects_without_vn {F : Type} (fx : FloatExtract F)
    (segs : List (Line × List Line)) :
    ∀ off, buildObjects fx off (filterBodies (withoutKey ['v', 'n']) segs) =
      (buildObjects fx off segs).map
        (fun ob : OBJRawObject F => { ob with tot_normals := 0 }) := by
  induction segs with
  | nil => intro off; rfl
  | cons s rest ih =>
    intro off
    have ih' := ih (off + (s.2.filter (hasKey ['v'])).length)
    simp only [filterBodies] at ih'
    simp only [filterBodies, List.map_cons, buildObjects, extendObject_without_vn,
      filter_keep (show ['v'] ≠ ['v', 'n'] by decide), ih']
    simp [OBJRawObject.fresh]

theorem buildObjects_without_usemtl {F : Type} (fx : FloatExtract F)
    (segs : List (Line × List Line)) :
    ∀ off, buildObjects fx off (filterBodies (withoutKey ['u', 's', 'e', 'm', 't', 'l']) segs) =
      (buildObjects fx off segs).map
        (fun ob : OBJRawObject F => { ob with material_name := [] }) := by
  induction segs with
  | nil => intro off; rfl
  | cons s rest ih =>
    intro off
    have ih' := ih (off + (s.2.filter (hasKey ['v'])).length)
    simp only [filterBodies] at ih'
    simp only [filterBodies, List.map_cons, buildObjects, extendObject_without_usemtl,
      filter_keep (show ['v'] ≠ ['u', 's', 'e', 'm', 't', 'l'] by decide), ih']
    simp [OBJRawObject.fresh]

theorem withoutKey_of_o {k : List Char} (hk : k ≠ ['o']) (l : Line)
    (h : lineKey l = ['o']) : withoutKey k l = true := by
  simp only [withoutKey, hasKey, h, Bool.not_eq_true', decide_eq_false_iff_not]
  exact fun hc => hk hc.symm

theorem not_dataKey_filter {p : Line → Bool} {pre : List Line}
    (h : ∀ l ∈ pre, lineKey l ∉ dataKeys) : ∀ l ∈ pre.filter p, lineKey l ∉ dataKeys :=
  fun l hl => h l (List.mem_filter.mp hl).1

theorem parse_and_store_segmented' {F : Type} (fx : FloatExtract F) {pre : List Line}
    {segs : List (Line × List Line)} (h : Segmented pre segs)
    (hd : ∀ l ∈ pre, lineKey l ∉ dataKeys) :
    parse_and_store fx (OBJImporter.init : OBJImporter F) (pre ++ segLines segs) =
      some (stateOf (buildObjects fx 0 segs)) :=
  parse_and_store_segmented fx h (fun l hl => (isDataKey_false_iff _).mpr (hd l hl))

theorem buildObjects_material_name {F : Type} (fx : FloatExtract F)
    (segs : List (Line × List Line)) :
    ∀ off, (buildObjects fx off segs : List (OBJRawObject F)).map
        (fun ob => ob.material_name) =
      segs.map (fun s => s.2.filter (hasKey ['u', 's', 'e', 'm', 't', 'l'])) := by
  induction segs with
  | nil => intro off; rfl
  | cons s rest ih => intro off; simp [buildObjects, extendObject, OBJRawObject.fresh, ih]

theorem buildObjects_object_name {F : Type} (fx : FloatExtract F)
    (segs : List (Line × List Line)) :
    ∀ off, (buildObjects fx off segs : List (OBJRawObject F)).map
        (fun ob => ob.object_name) = segs.map (fun s => s.1) := by
  induction segs with
  | nil => intro off; rfl
  | cons s rest ih => intro off; simp [buildObjects, extendObject, OBJRawObject.fresh, ih]

theorem buildObjects_vertices_length {F : Type} (fx : FloatExtract F)
    (segs : List (Line × List Line)) :
    ∀ off, (buildObjects fx off segs : List (OBJRawObject F)).map
        (fun ob => ob.vertices.length) =
      segs.map (fun s => (s.2.filter (hasKey ['v'])).length) := by
  induction segs with
  | nil => intro off; rfl
  | cons s rest ih => intro off; simp [buildObjects, extendObject, OBJRawObject.fresh, ih]

theorem filter_o_segmented {pre : List Line} {segs : List (Line × List Line)}
    (h : Segmented pre segs) :
    (pre ++ segLines segs).filter (hasKey ['o']) = segs.map (fun s => s.1) := by
  obtain ⟨hpre, hsegs⟩ := h
  have h1 : pre.filter (hasKey ['o']) = [] := by
    rw [List.filter_eq_nil_iff]
    intro l hl
    simpa [hasKey] using hpre l hl
  rw [List.filter_append, h1, List.nil_append]
  induction segs with
  | nil => rfl
  | cons s rest ih =>
    have hs := hsegs s (List.mem_cons_self _ _)
    have ih' := ih (fun t ht => hsegs t (List.mem_cons_of_mem _ ht))
    have h2 : s.2.filter (hasKey ['o']) = [] := by
      rw [List.filter_eq_nil_iff]
      intro l hl
      simpa [hasKey] using hs.2 l hl
    simp [segLines, List.filter_cons, hasKey, hs.1, List.filter_append, ih']
    simpa [hasKey] using h2

/-- Every file is segmented by its cut at the `o` lines. -/
theorem segmented_splitObjects (ls : List Line) :
    ls = (splitObjects ls).1 ++ segLines (splitObjects ls).2 ∧
      Segmented (splitObjects ls).1 (splitObjects ls).2 := by
  induction ls with
  | nil => exact ⟨rfl, by simp [Segmented, splitObjects]⟩
  | cons l ls ih =>
    obtain ⟨h1, h2, h3⟩ := ih
    by_cases hk : lineKey l = ['o']
    · simp only [splitObjects, hk, if_true, segLines, List.nil_append]
      refine ⟨by rw [← h1], by simp, ?_⟩
      intro s hs
      rcases List.mem_cons.mp hs with rfl | hs
      · exact ⟨hk, h2⟩
      · exact h3 s hs
    · simp only [splitObjects, hk, if_false, List.cons_append]
      refine ⟨by rw [← h1], ?_, h3⟩
      intro m hm
      rcases List.mem_cons.mp hm with rfl | hm
      · exact hk
      · exact h2 m hm

/-! ## Growth of the object list, and the accesses of `mesh_from_raw_obj` -/

theorem dataBeforeO_of_o_first {a1 : List Line} (o : Line) (a2 : List Line)
    (ha1 : ∀ m ∈ a1, lineKey m ∉ dataKeys) (ho : lineKey o = ['o']) :
    dataBeforeO (a1 ++ o :: a2) = false := by
  induction a1 with
  | nil => simp [dataBeforeO, ho]
  | cons m ms ih =>
    have hm := (isDataKey_false_iff _).mpr (ha1 m (List.mem_cons_self _ _))
    have ih' := ih (fun x hx => ha1 x (List.mem_cons_of_mem _ hx))
    simp [dataBeforeO, hm, ih']

theorem splitObjects_snd_ne_nil (a1 : List Line) (o : Line) (a2 : List Line)
    (ho : lineKey o = ['o']) : (splitObjects (a1 ++ o :: a2)).2 ≠ [] := by
  induction a1 with
  | nil => simp [splitObjects, ho]
  | cons m ms ih =>
    simp only [List.cons_append, splitObjects]
    split_ifs
    · simp
    · exact ih

theorem forEach_some {α β : Type} (f : α → Option β) :
    ∀ l : List α, (∀ x ∈ l, ∃ y, f x = some y) →
      ∃ ys, forEach f l = some ys ∧ ys.length = l.length := by
  intro l
  induction l with
  | nil => intro _; exact ⟨[], rfl, rfl⟩
  | cons a as ih =>
    intro h
    obtain ⟨y, hy⟩ := h a (List.mem_cons_self _ _)
    obtain ⟨ys, hys, hlen⟩ := ih (fun x hx => h x (List.mem_cons_of_mem _ hx))
    exact ⟨y :: ys, by simp [forEach, hy, hys], by simp [hlen]⟩

theorem elemAt_some {α : Type} (xs : List α) (i : Int) (h0 : 0 ≤ i)
    (h1 : i < (xs.length : Int)) : ∃ y, elemAt xs i = some y := by
  have hlt : i.toNat < xs.length := by omega
  exact ⟨xs[i.toNat], by simp [elemAt, h0, List.getElem?_eq_getElem hlt]⟩

/-- The accesses of one face are in bounds when the face has a corner and every
corner indexes an existing vertex. -/
theorem vertsOfFace_some {α : Type} (all_vertices : List α) (face : List OBJFaceCorner)
    (hne : face ≠ [])
    (h : ∀ c ∈ face, 0 ≤ c.vert_index ∧ c.vert_index < (all_vertices.length : Int)) :
    ∃ vs, vertsOfFace all_vertices face = some vs := by
  obtain ⟨ys, hys, hlen⟩ := forEach_some (fun c => elemAt all_vertices c.vert_index) face
    (fun c hc => elemAt_some all_vertices c.vert_index (h c hc).1 (h c hc).2)
  have hpos : 0 < ys.length := by rw [hlen]; exact List.length_pos.mpr hne
  refine ⟨ys, ?_⟩
  simp [vertsOfFace, hys, List.getElem?_eq_getElem hpos]

/-! ## The claims -/

/-- C1 (amended): in a run started on the empty object list with zero offsets, an `f`
line of the k-th object whose fields are n whitespace-separated decimal integers
`i_1..i_n` (of either sign), each at most `INT_MAX` and with `i_j - 1 - S_k` not below
`INT_MIN`, appends a face of exactly n corners, corner j having
`vert_index = i_j - 1 - S_k`, where `S_k` counts the vertices stored in the objects
before the k-th. A negative index is not resolved against the current vertex count. -/
theorem c1_face_line_corners {F : Type} (fx : FloatExtract F) (pre : List Line)
    (st : OBJImporter F) (objs : List (OBJRawObject F)) (cur : OBJRawObject F)
    (fields : List (List Char × List Char × Int)) (tail : List Char)
    (hrun : parse_and_store fx OBJImporter.init pre = some st)
    (hlist : st.list_of_objects = objs ++ [cur])
    (hfields : IntFields fields) (htail : ∀ c ∈ tail, isspace c = true)
    (hrange : ∀ x ∈ fields,
      INT_MIN ≤ x.2.2 - 1 - (totalVertices objs : Int) ∧ x.2.2 ≤ INT_MAX) :
    parse_and_store fx OBJImporter.init (pre ++ ['f' :: (fieldsText fields ++ tail)]) =
      some { st with list_of_objects := objs ++
        [{ cur with
            face_elements := cur.face_elements ++
              [fields.map (fun x =>
                ({ vert_index := x.2.2 - 1 - (totalVertices objs : Int) } : OBJFaceCorner))],
            tot_loop := cur.tot_loop + fields.length }] } := by
  have hcur := reached_current fx pre st objs cur hrun hlist
  obtain ⟨hk, ha⟩ := lineKey_f (head?_fieldsText hfields htail)
  have hoff : st.vertex_off = totalVertices objs := hcur.2.2.1
  have hfuel : fields.length < (fieldsText fields ++ tail).length + 1 := by
    have := fieldsText_length hfields
    rw [List.length_append]
    omega
  have hr' : ∀ x ∈ fields, INT_MIN ≤ x.2.2 ∧ x.2.2 ≤ INT_MAX := by
    intro x hx
    obtain ⟨h1, h2⟩ := hrange x hx
    refine ⟨?_, h2⟩
    have : (0 : Int) ≤ (totalVertices objs : Int) := Int.ofNat_nonneg _
    omega
  have hface : readFace st.vertex_off (afterToken ('f' :: (fieldsText fields ++ tail))) =
      fields.map (fun x =>
        ({ vert_index := x.2.2 - 1 - (totalVertices objs : Int) } : OBJFaceCorner)) := by
    rw [ha, hoff, readFace, readCorners_fields _ tail htail fields _ hfields hr' hfuel]
    apply List.map_congr_left
    intro x hx
    exact cornerOf_of_range (hrange x hx).1 (hrange x hx).2
  rw [parse_and_store_snoc fx pre _ st hrun,
    processLine_f_pointed fx st objs cur _ hcur.1 hcur.2.1 hk, hface]
  simp

/-- C1 (amended), at the file `o A`, `v 1 2 3`, `o B`, `f 2  -1 +3 `: the face has the
corners `2 - 1 - 1`, `-1 - 1 - 1` and `3 - 1 - 1`. -/
theorem c1_face_line_corners_witness :
    parse_and_store intFloat OBJImporter.init
        ["o A".toList, "v 1 2 3".toList, "o B".toList, "f 2  -1 +3 ".toList] =
      some { list_of_objects :=
               [sampleA,
                { (OBJRawObject.fresh "o B".toList : OBJRawObject Int) with
                  face_elements := [[{ vert_index := 0 }, { vert_index := -3 },
                    { vert_index := 1 }]],
                  tot_loop := 3 }],
             vertex_off := 1, uv_vertex_off := 0, curr_ob := some 1 } :=
  c1_face_line_corners intFloat ["o A".toList, "v 1 2 3".toList, "o B".toList]
    (stateOf [sampleA, OBJRawObject.fresh "o B".toList]) [sampleA]
    (OBJRawObject.fresh "o B".toList) sampleFields [' ']
    (by decide) rfl
    (by
      intro x hx
      simp only [sampleFields, List.mem_cons, List.mem_singleton, List.not_mem_nil,
        or_false] at hx
      rcases hx with rfl | rfl | rfl
      · exact ⟨by decide, by decide, ['2'], by decide, by decide, Or.inl ⟨rfl, by decide⟩⟩
      · exact ⟨by decide, by decide, ['1'], by decide, by decide,
          Or.inr (Or.inr ⟨rfl, by decide⟩)⟩
      · exact ⟨by decide, by decide, ['3'], by decide, by decide,
          Or.inr (Or.inl ⟨rfl, by decide⟩)⟩)
    (by decide) (by decide)

/-- C1 as stated fails: the line `f 2147483648` has one field, a decimal integer, but
the value does not fit an `int`, the extraction fails and the face appended has no
corner. -/
theorem c1_counterexample :
    IntFields [([' '], "2147483648".toList, 2147483648)] ∧
    "f 2147483648".toList =
      'f' :: (fieldsText [([' '], "2147483648".toList, 2147483648)] ++ []) ∧
    parse_and_store intFloat OBJImporter.init ["o A".toList, "f 2147483648".toList] =
      some (stateOf [{ (OBJRawObject.fresh "o A".toList : OBJRawObject Int) with
                       face_elements := [[]] }]) := by
  refine ⟨?_, by decide, by decide⟩
  intro x hx
  simp only [List.mem_singleton] at hx
  subst hx
  exact ⟨by decide, by decide, "2147483648".toList, by decide, by decide,
    Or.inl ⟨rfl, by decide⟩⟩

/-- C2: a run started on the empty object list dereferences the unset current-object
pointer if and only if some line with one of the keys `v`, `vn`, `vt`, `f`, `usemtl`
comes with no `o` line in front of it; when every such line has an `o` line in front
of it, the run ends in a state. -/
theorem c2_unset_pointer_iff {F : Type} (fx : FloatExtract F) (ls : List Line) :
    (parse_and_store fx (OBJImporter.init : OBJImporter F) ls = none ↔
      ∃ pre l post, ls = pre ++ l :: post ∧ lineKey l ∈ dataKeys ∧
        ∀ m ∈ pre, lineKey m ≠ ['o']) ∧
    ((∀ pre l post, ls = pre ++ l :: post → lineKey l ∈ dataKeys →
        ∃ m ∈ pre, lineKey m = ['o']) →
      ∃ st, parse_and_store fx (OBJImporter.init : OBJImporter F) ls = some st) := by
  have hiff := (parse_and_store_none_iff fx ls).trans (dataBeforeO_iff ls)
  refine ⟨hiff, fun h => ?_⟩
  cases hr : parse_and_store fx (OBJImporter.init : OBJImporter F) ls with
  | some st => exact ⟨st, rfl⟩
  | none =>
    obtain ⟨pre, l, post, he, hd, hp⟩ := hiff.mp hr
    obtain ⟨m, hm, hmo⟩ := h pre l post he hd
    exact absurd hmo (hp m hm)

/-- C3: a line whose key is none of `o`, `v`, `vn`, `vt`, `f`, `usemtl` leaves the
whole importer state unchanged: the object list, every raw object in it and the index
offsets. -/
theorem c3_unrecognised_line_noop {F : Type} (fx : FloatExtract F) (st : OBJImporter F)
    (l : Line) (ho : lineKey l ≠ ['o']) (hd : lineKey l ∉ dataKeys) :
    processLine fx st l = some st :=
  processLine_other fx st l ho ((isDataKey_false_iff _).mpr hd)

/-- C3 at the lines `#text`, `#`, the empty line and `mtllib x`. -/
theorem c3_unrecognised_line_noop_witness :
    processLine intFloat (stateOf [sampleA]) "#text".toList = some (stateOf [sampleA]) ∧
    processLine intFloat (stateOf [sampleA]) "# v 1 2 3".toList = some (stateOf [sampleA]) ∧
    processLine intFloat (stateOf [sampleA]) [] = some (stateOf [sampleA]) ∧
    processLine intFloat (stateOf [sampleA]) "mtllib x".toList = some (stateOf [sampleA]) :=
  ⟨c3_unrecognised_line_noop intFloat _ "#text".toList (by decide) (by decide),
   c3_unrecognised_line_noop intFloat _ "# v 1 2 3".toList (by decide) (by decide),
   c3_unrecognised_line_noop intFloat _ [] (by decide) (by decide),
   c3_unrecognised_line_noop intFloat _ "mtllib x".toList (by decide) (by decide)⟩

/-- C4 as stated fails: after `o A` the line `v abc` appends a vertex, and the line `f`
appends a face (without corners); neither line is skipped. -/
theorem c4_counterexample :
    parse_and_store intFloat OBJImporter.init ["o A".toList] =
      some (stateOf [OBJRawObject.fresh "o A".toList]) ∧
    parse_and_store intFloat OBJImporter.init ["o A".toList, "v abc".toList] =
      some (stateOf [{ (OBJRawObject.fresh "o A".toList : OBJRawObject Int) with
                       vertices := [{ co0 := some (0 : Int), co1 := none, co2 := none }] }]) ∧
    parse_and_store intFloat OBJImporter.init ["o A".toList, "f".toList] =
      some (stateOf [{ (OBJRawObject.fresh "o A".toList : OBJRawObject Int) with
                       face_elements := [[]] }]) := by
  decide

/-- C4 (amended): a malformed line with a recognised key is not skipped. Every `v`
line, whatever follows the key, appends exactly one vertex to the current object and
changes nothing else; every `f` line from which no integer index can be read appends
one face without corners to `face_elements` and changes nothing else (`vertices` and
`tot_loop` stay as they are). -/
theorem c4_malformed_line_appends {F : Type} (fx : FloatExtract F) (st : OBJImporter F)
    (init : List (OBJRawObject F)) (cur : OBJRawObject F) (l : Line)
    (hl : st.list_of_objects = init ++ [cur]) (hc : st.curr_ob = some init.length) :
    (lineKey l = ['v'] →
      processLine fx st l = some { st with list_of_objects := init ++
        [{ cur with vertices := cur.vertices ++ [readVert fx (afterToken l)] }] }) ∧
    (lineKey l = ['f'] → extractInt (afterToken l) = none →
      processLine fx st l = some { st with list_of_objects := init ++
        [{ cur with face_elements := cur.face_elements ++ [[]] }] }) := by
  constructor
  · intro hk
    rw [processLine_data_pointed fx st init cur l hl hc (by rw [hk]; decide)]
    simp [applyData, hk]
  · intro hk hnone
    rw [processLine_f_pointed fx st init cur l hl hc hk, readFace_none _ hnone]
    simp

/-- C4 (amended) at the lines `v abc` and `f` after `o A`. -/
theorem c4_malformed_line_appends_witness :
    processLine intFloat stateA "v abc".toList =
      some (stateOf [{ (OBJRawObject.fresh "o A".toList : OBJRawObject Int) with
                       vertices := [{ co0 := some (0 : Int), co1 := none, co2 := none }] }]) ∧
    processLine intFloat stateA "f".toList =
      some (stateOf [{ (OBJRawObject.fresh "o A".toList : OBJRawObject Int) with
                       face_elements := [[]] }]) :=
  ⟨(c4_malformed_line_appends intFloat stateA []
      (OBJRawObject.fresh "o A".toList) "v abc".toList rfl rfl).1 (by decide),
   (c4_malformed_line_appends intFloat stateA []
      (OBJRawObject.fresh "o A".toList) "f".toList rfl rfl).2 (by decide) (by decide)⟩

/-- C5 as stated fails: the face of `f 1/1/1 2/2/2 3/3/3` has one corner, the face of
`f 1 2 3` has three. -/
theorem c5_counterexample :
    parse_and_store intFloat OBJImporter.init
        ["o A".toList, "f 1/1/1 2/2/2 3/3/3".toList] =
      some (stateOf [{ (OBJRawObject.fresh "o A".toList : OBJRawObject Int) with
                       face_elements := [[{ vert_index := 0 }]], tot_loop := 1 }]) ∧
    parse_and_store intFloat OBJImporter.init ["o A".toList, "f 1 2 3".toList] =
      some (stateOf [{ (OBJRawObject.fresh "o A".toList : OBJRawObject Int) with
                       face_elements := [[{ vert_index := 0 }, { vert_index := 1 },
                         { vert_index := 2 }]],
                       tot_loop := 3 }]) := by
  decide

/-- C5 (amended): the texture-coordinate and normal indices of a face corner are not
skipped, reading the face line stops at the first `/`. For a face line whose first
corner is written `v/...`, with `v` a decimal integer that fits an `int`, the face
appended has exactly one corner, the corner stored for `v`; the line that holds only
this first vertex index appends the same face. The corners behind the first one are
not stored. -/
theorem c5_face_stops_at_slash {F : Type} (fx : FloatExtract F) (st : OBJImporter F)
    (init : List (OBJRawObject F)) (cur : OBJRawObject F) (sep t rest : List Char) (i : Int)
    (hl : st.list_of_objects = init ++ [cur]) (hc : st.curr_ob = some init.length)
    (hne : sep ≠ []) (hws : ∀ c ∈ sep, isspace c = true) (hdec : IsDecimal t i)
    (hlo : INT_MIN ≤ i) (hhi : i ≤ INT_MAX) :
    processLine fx st ('f' :: (sep ++ (t ++ '/' :: rest))) =
      some { st with list_of_objects := init ++
        [{ cur with face_elements := cur.face_elements ++ [[cornerOf st.vertex_off i]],
                    tot_loop := cur.tot_loop + 1 }] } ∧
    processLine fx st ('f' :: (sep ++ t)) =
      processLine fx st ('f' :: (sep ++ (t ++ '/' :: rest))) := by
  obtain ⟨hk1, ha1⟩ := lineKey_f (head?_sep hne hws (t ++ '/' :: rest))
  obtain ⟨hk2, ha2⟩ := lineKey_f (head?_sep hne hws t)
  have h1 := processLine_f_pointed fx st init cur _ hl hc hk1
  have h2 := processLine_f_pointed fx st init cur _ hl hc hk2
  rw [ha1, readFace_slash _ rest hws hdec hlo hhi] at h1
  rw [ha2, readFace_single _ hws hdec hlo hhi] at h2
  refine ⟨?_, ?_⟩
  · rw [h1]; simp
  · rw [h1, h2]

/-- C5 (amended) at the line `f 1/1/1 2/2/2 3/3/3` after `o A`. -/
theorem c5_face_stops_at_slash_witness :
    processLine intFloat stateA
        "f 1/1/1 2/2/2 3/3/3".toList =
      some (stateOf [{ (OBJRawObject.fresh "o A".toList : OBJRawObject Int) with
                       face_elements := [[{ vert_index := 0 }]], tot_loop := 1 }]) ∧
    processLine intFloat stateA "f 1".toList =
      processLine intFloat stateA
        "f 1/1/1 2/2/2 3/3/3".toList :=
  c5_face_stops_at_slash intFloat stateA []
    (OBJRawObject.fresh "o A".toList) [' '] ['1'] "1/1 2/2/2 3/3/3".toList 1 rfl rfl
    (by decide) (by decide) ⟨['1'], by decide, by decide, Or.inl ⟨rfl, by decide⟩⟩
    (by decide) (by decide)

/-- C6: a `vn` line adds one to `tot_normals` of the current object and changes nothing
else; so for a file in which no data line comes before the first `o` line, deleting all
`vn` lines gives the same object list up to `tot_normals` (the same objects with the
same name, vertices, texture vertices, faces, `tot_loop` and material names) and the
same index offsets. -/
theorem c6_vn_only_counts {F : Type} (fx : FloatExtract F) (pre : List Line)
    (segs : List (Line × List Line)) (hseg : Segmented pre segs)
    (hpre : ∀ l ∈ pre, lineKey l ∉ dataKeys) :
    (∀ (st : OBJImporter F) (init : List (OBJRawObject F)) (cur : OBJRawObject F) (l : Line),
      st.list_of_objects = init ++ [cur] → st.curr_ob = some init.length →
      lineKey l = ['v', 'n'] →
      processLine fx st l = some { st with list_of_objects := init ++
        [{ cur with tot_normals := cur.tot_normals + 1 }] }) ∧
    ∃ st st',
      parse_and_store fx (OBJImporter.init : OBJImporter F) (pre ++ segLines segs) = some st ∧
      parse_and_store fx (OBJImporter.init : OBJImporter F)
        ((pre ++ segLines segs).filter (withoutKey ['v', 'n'])) = some st' ∧
      st'.list_of_objects = st.list_of_objects.map (fun ob => { ob with tot_normals := 0 }) ∧
      st'.vertex_off = st.vertex_off ∧ st'.uv_vertex_off = st.uv_vertex_off ∧
      st'.curr_ob = st.curr_ob := by
  constructor
  · intro st init cur l hl hc hk
    rw [processLine_data_pointed fx st init cur l hl hc (by rw [hk]; decide)]
    simp [applyData, hk]
  · refine ⟨stateOf (buildObjects fx 0 segs),
      stateOf (buildObjects fx 0 (filterBodies (withoutKey ['v', 'n']) segs)),
      parse_and_store_segmented' fx hseg hpre, ?_, ?_⟩
    · rw [filter_segmented (fun l h => withoutKey_of_o (by decide) l h) hseg]
      exact parse_and_store_segmented' fx (segmented_filter hseg) (not_dataKey_filter hpre)
    · rw [buildObjects_without_vn,
        stateOf_map (fun ob : OBJRawObject F => { ob with tot_normals := 0 })
          (fun _ => rfl) (fun _ => rfl)]
      exact ⟨rfl, rfl, rfl, rfl⟩

/-- C6 on the sample file. -/
theorem c6_vn_only_counts_witness :
    ∃ st st',
      parse_and_store intFloat OBJImporter.init (samplePre ++ segLines sampleSegs) = some st ∧
      parse_and_store intFloat OBJImporter.init
        ((samplePre ++ segLines sampleSegs).filter (withoutKey ['v', 'n'])) = some st' ∧
      st'.list_of_objects = st.list_of_objects.map (fun ob => { ob with tot_normals := 0 }) ∧
      st'.vertex_off = st.vertex_off ∧ st'.uv_vertex_off = st.uv_vertex_off ∧
      st'.curr_ob = st.curr_ob :=
  (c6_vn_only_counts intFloat samplePre sampleSegs (by unfold Segmented; decide)
    (by decide)).2

/-- C7: a `usemtl` line appends exactly one entry, the line's text, to `material_name`
of the current object and changes nothing else; the material names of the k-th object
are the `usemtl` lines of its segment in file order (m lines give m names); and
deleting all `usemtl` lines gives the same object list up to `material_name` and the
same index offsets. -/
theorem c7_usemtl_only_appends {F : Type} (fx : FloatExtract F) (pre : List Line)
    (segs : List (Line × List Line)) (hseg : Segmented pre segs)
    (hpre : ∀ l ∈ pre, lineKey l ∉ dataKeys) :
    (∀ (st : OBJImporter F) (init : List (OBJRawObject F)) (cur : OBJRawObject F) (l : Line),
      st.list_of_objects = init ++ [cur] → st.curr_ob = some init.length →
      lineKey l = ['u', 's', 'e', 'm', 't', 'l'] →
      processLine fx st l = some { st with list_of_objects := init ++
        [{ cur with material_name := cur.material_name ++ [l] }] }) ∧
    ∃ st st',
      parse_and_store fx (OBJImporter.init : OBJImporter F) (pre ++ segLines segs) = some st ∧
      st.list_of_objects.map (fun ob => ob.material_name) =
        segs.map (fun s => s.2.filter (hasKey ['u', 's', 'e', 'm', 't', 'l'])) ∧
      parse_and_store fx (OBJImporter.init : OBJImporter F)
        ((pre ++ segLines segs).filter (withoutKey ['u', 's', 'e', 'm', 't', 'l'])) =
          some st' ∧
      st'.list_of_objects = st.list_of_objects.map (fun ob => { ob with material_name := [] }) ∧
      st'.vertex_off = st.vertex_off ∧ st'.uv_vertex_off = st.uv_vertex_off ∧
      st'.curr_ob = st.curr_ob := by
  constructor
  · intro st init cur l hl hc hk
    rw [processLine_data_pointed fx st init cur l hl hc (by rw [hk]; decide)]
    simp [applyData, hk]
  · refine ⟨stateOf (buildObjects fx 0 segs),
      stateOf (buildObjects fx 0
        (filterBodies (withoutKey ['u', 's', 'e', 'm', 't', 'l']) segs)),
      parse_and_store_segmented' fx hseg hpre, buildObjects_material_name fx segs 0, ?_, ?_⟩
    · rw [filter_segmented (fun l h => withoutKey_of_o (by decide) l h) hseg]
      exact parse_and_store_segmented' fx (segmented_filter hseg) (not_dataKey_filter hpre)
    · rw [buildObjects_without_usemtl,
        stateOf_map (fun ob : OBJRawObject F => { ob with material_name := [] })
          (fun _ => rfl) (fun _ => rfl)]
      exact ⟨rfl, rfl, rfl, rfl⟩

/-- C7 on the sample file. -/
theorem c7_usemtl_only_appends_witness :
    ∃ st st',
      parse_and_store intFloat OBJImporter.init (samplePre ++ segLines sampleSegs) = some st ∧
      st.list_of_objects.map (fun ob => ob.material_name) =
        sampleSegs.map (fun s => s.2.filter (hasKey ['u', 's', 'e', 'm', 't', 'l'])) ∧
      parse_and_store intFloat OBJImporter.init
        ((samplePre ++ segLines sampleSegs).filter
          (withoutKey ['u', 's', 'e', 'm', 't', 'l'])) = some st' ∧
      st'.list_of_objects = st.list_of_objects.map (fun ob => { ob with material_name := [] }) ∧
      st'.vertex_off = st.vertex_off ∧ st'.uv_vertex_off = st.uv_vertex_off ∧
      st'.curr_ob = st.curr_ob :=
  (c7_usemtl_only_appends intFloat samplePre sampleSegs (by unfold Segmented; decide)
    (by decide)).2

/-- C8: for a file in which no data line comes before the first `o` line, cut at its
`o` lines into the segments `segs`, the run from the empty list ends with as many raw
objects as the file has `o` lines, the k-th object being the one created for the k-th
`o` line, and the k-th object has exactly one vertex per `v` line, one texture vertex
per `vt` line and one face per `f` line of the k-th segment, in the order of those
lines. -/
theorem c8_objects_follow_segments {F : Type} (fx : FloatExtract F) (pre : List Line)
    (segs : List (Line × List Line)) (hseg : Segmented pre segs)
    (hpre : ∀ l ∈ pre, lineKey l ∉ dataKeys) :
    ∃ st, parse_and_store fx (OBJImporter.init : OBJImporter F) (pre ++ segLines segs) =
        some st ∧
      st.list_of_objects.length = ((pre ++ segLines segs).filter (hasKey ['o'])).length ∧
      st.list_of_objects.map (fun ob => ob.object_name) =
        (pre ++ segLines segs).filter (hasKey ['o']) ∧
      st.list_of_objects.length = segs.length ∧
      ∀ (k : Nat) (s : Line × List Line), segs[k]? = some s →
        ∃ ob : OBJRawObject F, st.list_of_objects[k]? = some ob ∧ ob.object_name = s.1 ∧
          ob.vertices =
            (s.2.filter (hasKey ['v'])).map (fun l => readVert fx (afterToken l)) ∧
          ob.texture_vertices =
            (s.2.filter (hasKey ['v', 't'])).map (fun l => readTexVert fx (afterToken l)) ∧
          ob.face_elements =
            (s.2.filter (hasKey ['f'])).map
              (fun l => readFace (vertexCount (segs.take k)) (afterToken l)) := by
  refine ⟨stateOf (buildObjects fx 0 segs), parse_and_store_segmented' fx hseg hpre,
    ?_, ?_, ?_, ?_⟩
  · simp [stateOf, buildObjects_length, filter_o_segmented hseg]
  · rw [filter_o_segmented hseg]; exact buildObjects_object_name fx segs 0
  · simp [stateOf, buildObjects_length]
  · intro k s hs
    refine ⟨extendObject fx (0 + vertexCount (segs.take k)) (OBJRawObject.fresh s.1) s.2,
      ?_, ?_⟩
    · simp [stateOf, buildObjects_getElem?, hs]
    · simp [extendObject, OBJRawObject.fresh]

/-- C8 on the sample file. -/
theorem c8_objects_follow_segments_witness :
    ∃ st, parse_and_store intFloat OBJImporter.init (samplePre ++ segLines sampleSegs) =
        some st ∧
      st.list_of_objects.length =
        ((samplePre ++ segLines sampleSegs).filter (hasKey ['o'])).length ∧
      st.list_of_objects.map (fun ob => ob.object_name) =
        (samplePre ++ segLines sampleSegs).filter (hasKey ['o']) ∧
      st.list_of_objects.length = sampleSegs.length ∧
      ∀ (k : Nat) (s : Line × List Line), sampleSegs[k]? = some s →
        ∃ ob : OBJRawObject Int, st.list_of_objects[k]? = some ob ∧ ob.object_name = s.1 ∧
          ob.vertices =
            (s.2.filter (hasKey ['v'])).map (fun l => readVert intFloat (afterToken l)) ∧
          ob.texture_vertices =
            (s.2.filter (hasKey ['v', 't'])).map
              (fun l => readTexVert intFloat (afterToken l)) ∧
          ob.face_elements =
            (s.2.filter (hasKey ['f'])).map
              (fun l => readFace (vertexCount (sampleSegs.take k)) (afterToken l)) :=
  c8_objects_follow_segments intFloat samplePre sampleSegs (by unfold Segmented; decide)
    (by decide)

/-- C9 as stated fails: with A the file `o A` and B the line `vn 0 0 1`, the last
object after A followed by B is not the last object after A with its four lists
extended: its lists are unchanged and its `tot_normals` counter went from 0 to 1. -/
theorem c9_counterexample :
    parse_and_store intFloat OBJImporter.init ["o A".toList] =
      some (stateOf [OBJRawObject.fresh "o A".toList]) ∧
    parse_and_store intFloat OBJImporter.init (["o A".toList] ++ ["vn 0 0 1".toList]) =
      some (stateOf [{ (OBJRawObject.fresh "o A".toList : OBJRawObject Int) with
                       tot_normals := 1 }]) ∧
    ¬ ∃ (ev : List (MVert Int)) (et : List (MLoopUV Int)) (ef : List (List OBJFaceCorner))
        (em : List (List Char)),
      ({ (OBJRawObject.fresh "o A".toList : OBJRawObject Int) with tot_normals := 1 } :
          OBJRawObject Int) =
        { (OBJRawObject.fresh "o A".toList : OBJRawObject Int) with
          vertices := (OBJRawObject.fresh "o A".toList : OBJRawObject Int).vertices ++ ev,
          texture_vertices :=
            (OBJRawObject.fresh "o A".toList : OBJRawObject Int).texture_vertices ++ et,
          face_elements :=
            (OBJRawObject.fresh "o A".toList : OBJRawObject Int).face_elements ++ ef,
          material_name :=
            (OBJRawObject.fresh "o A".toList : OBJRawObject Int).material_name ++ em } := by
  refine ⟨by decide, by decide, ?_⟩
  rintro ⟨ev, et, ef, em, h⟩
  have h' := congrArg OBJRawObject.tot_normals h
  simp [OBJRawObject.fresh] at h'

/-- C9 (amended): for line sequences A and B, A having an `o` line with no data line
in front of it, the object list after A followed by B has every object of the list
after A except the last as an unchanged prefix element, and the last object of the
list after A differs only by having its `vertices`, `texture_vertices`,
`face_elements` and `material_name` lists extended at the end and its counters
`tot_normals` and `tot_loop` increased: its name is unchanged, each list is a prefix of
the later list and each counter is at most the later counter. -/
theorem c9_objects_only_grow {F : Type} (fx : FloatExtract F) (A B a1 a2 : List Line)
    (o : Line) (hA : A = a1 ++ o :: a2) (ho : lineKey o = ['o'])
    (ha1 : ∀ m ∈ a1, lineKey m ∉ dataKeys) :
    ∃ (sA sAB : OBJImporter F) (init : List (OBJRawObject F)) (last last' : OBJRawObject F)
        (rest : List (OBJRawObject F)),
      parse_and_store fx OBJImporter.init A = some sA ∧
      parse_and_store fx OBJImporter.init (A ++ B) = some sAB ∧
      sA.list_of_objects = init ++ [last] ∧
      sAB.list_of_objects = init ++ last' :: rest ∧
      last'.object_name = last.object_name ∧
      last.vertices <+: last'.vertices ∧
      last.texture_vertices <+: last'.texture_vertices ∧
      last.face_elements <+: last'.face_elements ∧
      last.material_name <+: last'.material_name ∧
      last.tot_normals ≤ last'.tot_normals ∧ last.tot_loop ≤ last'.tot_loop := by
  subst hA
  obtain ⟨sA, h1, -, h3⟩ := (parse_and_store_init fx (a1 ++ o :: a2)).2
    (dataBeforeO_of_o_first o a2 ha1 ho)
  rcases h3 with ⟨-, h3⟩ | ⟨init, last, hcur⟩
  · exact absurd h3 (splitObjects_snd_ne_nil a1 o a2 ho)
  · obtain ⟨sAB, h4, h5⟩ := parse_and_store_pointed fx B sA init last hcur.1 hcur.2.1
    refine ⟨sA, sAB, init, last, _, _, h1, ?_, hcur.1, h5, ?_⟩
    · rw [parse_and_store_append, h1]; exact h4
    · simp [extendObject]

/-- C9 (amended) with A the lines `o A`, `v 1 2 3` and B the lines `vn 0 0 1`, `f 1`,
`o B`. -/
theorem c9_objects_only_grow_witness :
    ∃ (sA sAB : OBJImporter Int) (init : List (OBJRawObject Int))
        (last last' : OBJRawObject Int) (rest : List (OBJRawObject Int)),
      parse_and_store intFloat OBJImporter.init ["o A".toList, "v 1 2 3".toList] = some sA ∧
      parse_and_store intFloat OBJImporter.init
        (["o A".toList, "v 1 2 3".toList] ++
          ["vn 0 0 1".toList, "f 1".toList, "o B".toList]) = some sAB ∧
      sA.list_of_objects = init ++ [last] ∧
      sAB.list_of_objects = init ++ last' :: rest ∧
      last'.object_name = last.object_name ∧
      last.vertices <+: last'.vertices ∧
      last.texture_vertices <+: last'.texture_vertices ∧
      last.face_elements <+: last'.face_elements ∧
      last.material_name <+: last'.material_name ∧
      last.tot_normals ≤ last'.tot_normals ∧ last.tot_loop ≤ last'.tot_loop :=
  c9_objects_only_grow intFloat ["o A".toList, "v 1 2 3".toList]
    ["vn 0 0 1".toList, "f 1".toList, "o B".toList] [] ["v 1 2 3".toList] "o A".toList
    rfl (by decide) (by decide)

/-- C10: for a file in which no data line comes before the first `o` line, cut at its
`o` lines into the segments `segs`, if every `f` line has at least one index and every
index `i` of an `f` line of segment k satisfies `S_k < i ≤ S_k + n_k` (`S_k` the number
of vertices of the earlier objects, `n_k` the final number of vertices of object k),
then in every raw object every face has a corner and every stored `vert_index` lies in
`[0, n_k)`, and all element accesses of `mesh_from_raw_obj` are in bounds: it returns
a result. -/
theorem c10_mesh_accesses_in_bounds {F : Type} (fx : FloatExtract F) (pre : List Line)
    (segs : List (Line × List Line)) (hseg : Segmented pre segs)
    (hpre : ∀ l ∈ pre, lineKey l ∉ dataKeys)
    (hidx : ∀ (k : Nat) (s : Line × List Line), segs[k]? = some s →
      ∀ l ∈ s.2, lineKey l = ['f'] →
        faceIndices l ≠ [] ∧
        ∀ i ∈ faceIndices l,
          (vertexCount (segs.take k) : Int) < i ∧
          i ≤ (vertexCount (segs.take k) : Int) + ((s.2.filter (hasKey ['v'])).length : Int)) :
    ∃ st, parse_and_store fx (OBJImporter.init : OBJImporter F) (pre ++ segLines segs) =
        some st ∧
      st.list_of_objects.map (fun ob => ob.vertices.length) =
        segs.map (fun s => (s.2.filter (hasKey ['v'])).length) ∧
      ∀ ob ∈ st.list_of_objects,
        (∀ face ∈ ob.face_elements, face ≠ [] ∧
          ∀ c ∈ face, 0 ≤ c.vert_index ∧ c.vert_index < (ob.vertices.length : Int)) ∧
        ∃ faces, mesh_from_raw_obj ob = some faces := by
  refine ⟨stateOf (buildObjects fx 0 segs), parse_and_store_segmented' fx hseg hpre,
    buildObjects_vertices_length fx segs 0, ?_⟩
  intro ob hob
  obtain ⟨k, hk⟩ := List.mem_iff_getElem?.mp hob
  simp only [stateOf, buildObjects_getElem?, Option.map_eq_some'] at hk
  obtain ⟨s, hs, rfl⟩ := hk
  have hfaces : ∀ face ∈ (extendObject fx (0 + vertexCount (segs.take k))
      (OBJRawObject.fresh s.1 : OBJRawObject F) s.2).face_elements, face ≠ [] ∧
      ∀ c ∈ face, 0 ≤ c.vert_index ∧
        c.vert_index < ((extendObject fx (0 + vertexCount (segs.take k))
          (OBJRawObject.fresh s.1 : OBJRawObject F) s.2).vertices.length : Int) := by
    intro face hface
    simp only [extendObject, OBJRawObject.fresh, List.nil_append, List.mem_map,
      List.mem_filter, hasKey, decide_eq_true_eq, Nat.zero_add] at hface
    obtain ⟨l, ⟨hl, hkey⟩, rfl⟩ := hface
    obtain ⟨hne, hin⟩ := hidx k s hs l hl hkey
    rw [readFace_eq_map]
    refine ⟨by simpa using hne, ?_⟩
    intro c hc
    obtain ⟨i, hi, rfl⟩ := List.mem_map.mp hc
    obtain ⟨h1, h2⟩ := hin i hi
    obtain ⟨-, h4⟩ := readIndices_range _ _ i hi
    have hcorner := @cornerOf_of_range (vertexCount (segs.take k)) i
      (by unfold INT_MIN; omega) h4
    rw [hcorner]
    simp only [extendObject_vertices_length, OBJRawObject.fresh, List.length_nil]
    omega
  refine ⟨hfaces, ?_⟩
  obtain ⟨ys, hys, -⟩ := forEach_some
    (vertsOfFace (extendObject fx (0 + vertexCount (segs.take k))
      (OBJRawObject.fresh s.1 : OBJRawObject F) s.2).vertices) _
    (fun face hface => vertsOfFace_some _ face (hfaces face hface).1 (hfaces face hface).2)
  exact ⟨ys, hys⟩

/-- C10 on the sample file: the faces `f 1 2` of the first object (two vertices) and
`f 3 3 3` of the second object (one vertex, two vertices before it). -/
theorem c10_mesh_accesses_in_bounds_witness :
    ∃ st, parse_and_store intFloat OBJImporter.init (samplePre ++ segLines sampleSegs) =
        some st ∧
      st.list_of_objects.map (fun ob => ob.vertices.length) =
        sampleSegs.map (fun s => (s.2.filter (hasKey ['v'])).length) ∧
      ∀ ob ∈ st.list_of_objects,
        (∀ face ∈ ob.face_elements, face ≠ [] ∧
          ∀ c ∈ face, 0 ≤ c.vert_index ∧ c.vert_index < (ob.vertices.length : Int)) ∧
        ∃ faces, mesh_from_raw_obj ob = some faces :=
  c10_mesh_accesses_in_bounds intFloat samplePre sampleSegs (by unfold Segmented; decide)
    (by decide)
    (by
      intro k s hs
      rcases k with _ | _ | k
      · simp only [sampleSegs, List.getElem?_cons_zero, Option.some.injEq] at hs
        subst hs
        decide
      · simp only [sampleSegs, List.getElem?_cons_succ, List.getElem?_cons_zero,
          Option.some.injEq] at hs
        subst hs
        decide
      · simp [sampleSegs] at hs)

/-! ## The loop counter and the text kept for names -/

theorem cornerCount_fresh {F : Type} (name : List Char) :
    (OBJRawObject.fresh name : OBJRawObject F).tot_loop =
      cornerCount (OBJRawObject.fresh name : OBJRawObject F) := rfl

/-- An update of the current object that keeps `tot_loop` in step with the faces
keeps it so in the whole list. -/
theorem updateCurr_counted {F : Type} (st st' : OBJImporter F)
    (f : OBJRawObject F → OBJRawObject F)
    (hf : ∀ ob, ob.tot_loop = cornerCount ob → (f ob).tot_loop = cornerCount (f ob))
    (hinv : ∀ ob ∈ st.list_of_objects, ob.tot_loop = cornerCount ob)
    (h : st.updateCurr f = some st') :
    ∀ ob ∈ st'.list_of_objects, ob.tot_loop = cornerCount ob := by
  unfold OBJImporter.updateCurr at h
  cases hc : st.curr_ob with
  | none => simp [hc] at h
  | some i =>
    cases hg : st.list_of_objects[i]? with
    | none => simp [hc, hg] at h
    | some cur =>
      simp only [hc, hg, Option.some.injEq] at h
      subst h
      intro ob hob
      rcases List.mem_or_eq_of_mem_set hob with hmem | rfl
      · exact hinv ob hmem
      · exact hf cur (hinv cur (List.getElem?_mem hg))

/-- One line keeps `tot_loop` equal to the number of face corners in every object. -/
theorem processLine_counted {F : Type} (fx : FloatExtract F) (st st' : OBJImporter F)
    (l : Line) (hinv : ∀ ob ∈ st.list_of_objects, ob.tot_loop = cornerCount ob)
    (h : processLine fx st l = some st') :
    ∀ ob ∈ st'.list_of_objects, ob.tot_loop = cornerCount ob := by
  unfold processLine at h
  simp only at h
  split_ifs at h
  · cases hd : st.deref with
    | none => simp [hd] at h
    | some cur =>
      simp only [hd, Option.some.injEq] at h
      subst h
      intro ob hob
      rcases List.mem_append.mp hob with hmem | hmem
      · exact hinv ob hmem
      · rw [List.mem_singleton.mp hmem]; rfl
  · simp only [Option.some.injEq] at h
    subst h
    intro ob hob
    rcases List.mem_append.mp hob with hmem | hmem
    · exact hinv ob hmem
    · rw [List.mem_singleton.mp hmem]; rfl
  · exact updateCurr_counted st st' _ (fun ob hob => by simpa [cornerCount] using hob) hinv h
  · exact updateCurr_counted st st' _ (fun ob hob => by simpa [cornerCount] using hob) hinv h
  · exact updateCurr_counted st st' _ (fun ob hob => by simpa [cornerCount] using hob) hinv h
  · exact updateCurr_counted st st' _
      (fun ob hob => by simp [cornerCount, List.sum_append] at hob ⊢; omega) hinv h
  · exact updateCurr_counted st st' _ (fun ob hob => by simpa [cornerCount] using hob) hinv h
  · simp only [Option.some.injEq] at h
    subst h
    exact hinv

/-- C12: `tot_loop` counts the face corners. A raw object is created with
`tot_loop = 0` and no face; from any state in which every raw object has `tot_loop`
equal to the sum of the corner counts of its faces (the empty list at the start),
after any number of processed lines every raw object of the list again has `tot_loop`
equal to that sum, which is the loop count `mesh_from_raw_obj` passes to the mesh
allocation. -/
theorem c12_tot_loop_counts_corners {F : Type} (fx : FloatExtract F) (ls : List Line) :
    ∀ (st st' : OBJImporter F),
      (∀ ob ∈ st.list_of_objects, ob.tot_loop = cornerCount ob) →
      parse_and_store fx st ls = some st' →
      ∀ ob ∈ st'.list_of_objects,
        ob.tot_loop = (ob.face_elements.map (fun face => face.length)).sum ∧
        (meshAllocCounts ob).1 = (ob.face_elements.map (fun face => face.length)).sum := by
  induction ls with
  | nil =>
    intro st st' hinv h ob hob
    simp only [parse_and_store, Option.some.injEq] at h
    subst h
    exact ⟨hinv ob hob, hinv ob hob⟩
  | cons l ls ih =>
    intro st st' hinv h
    simp only [parse_and_store] at h
    cases hp : processLine fx st l with
    | none => simp [hp] at h
    | some st1 =>
      simp only [hp] at h
      exact ih st1 st' (processLine_counted fx st st1 l hinv hp) h

/-- C12 on the file `o A`, `f 1 2`, `f 3`, read from the initial state: the object
has three loops, the corners of its two faces. -/
theorem c12_tot_loop_counts_corners_witness :
    (3 : Nat) = ([[({ vert_index := 0 } : OBJFaceCorner), { vert_index := 1 }],
        [{ vert_index := 2 }]].map (fun face => face.length)).sum ∧
    (meshAllocCounts
        ({ (OBJRawObject.fresh "o A".toList : OBJRawObject Int) with
           face_elements := [[{ vert_index := 0 }, { vert_index := 1 }],
             [{ vert_index := 2 }]],
           tot_loop := 3 } : OBJRawObject Int)).1 =
      ([[({ vert_index := 0 } : OBJFaceCorner), { vert_index := 1 }],
        [{ vert_index := 2 }]].map (fun face => face.length)).sum :=
  c12_tot_loop_counts_corners intFloat ["o A".toList, "f 1 2".toList, "f 3".toList]
    OBJImporter.init stateFaces (fun _ hob => by cases hob) (by decide) _
    (List.mem_singleton.mpr rfl)

/-- C13: the text handed to the new raw object for an `o` line, and the entry appended
to `material_name` for a `usemtl` line, is the entire line, key token included. For a
line with key `o` the object appended is the fresh object made from the whole line; for
a line with key `usemtl` the current object gets the whole line appended to
`material_name`. -/
theorem c13_whole_line_is_kept {F : Type} (fx : FloatExtract F) (st st' : OBJImporter F)
    (l : Line) (h : processLine fx st l = some st') :
    (lineKey l = ['o'] →
      st'.list_of_objects = st.list_of_objects ++ [OBJRawObject.fresh l] ∧
      (OBJRawObject.fresh l : OBJRawObject F).object_name = l) ∧
    (lineKey l = ['u', 's', 'e', 'm', 't', 'l'] →
      ∃ (i : Nat) (cur : OBJRawObject F), st.curr_ob = some i ∧
        st.list_of_objects[i]? = some cur ∧
        st'.list_of_objects = st.list_of_objects.set i
          { cur with material_name := cur.material_name ++ [l] }) := by
  constructor
  · intro hk
    refine ⟨?_, rfl⟩
    unfold processLine at h
    simp only [hk, if_true] at h
    split_ifs at h
    · cases hd : st.deref with
      | none => simp [hd] at h
      | some cur =>
        simp only [hd, Option.some.injEq] at h
        subst h
        rfl
    · simp only [Option.some.injEq] at h
      subst h
      rfl
  · intro hk
    unfold processLine at h
    simp only [hk] at h
    rw [if_neg (by decide), if_neg (by decide), if_neg (by decide), if_neg (by decide),
      if_neg (by decide), if_pos True.intro] at h
    unfold OBJImporter.updateCurr at h
    cases hc : st.curr_ob with
    | none => simp [hc] at h
    | some i =>
      cases hg : st.list_of_objects[i]? with
      | none => simp [hc, hg] at h
      | some cur =>
        simp only [hc, hg, Option.some.injEq] at h
        subst h
        exact ⟨i, cur, rfl, hg, rfl⟩

/-- C13 at the lines `o Cube`, read in the initial state, and `usemtl Mat`, read after
`o A`: the name text is `o Cube` and the material entry is `usemtl Mat`. -/
theorem c13_whole_line_is_kept_witness :
    ((stateOf [OBJRawObject.fresh "o Cube".toList] : OBJImporter Int).list_of_objects =
        (OBJImporter.init : OBJImporter Int).list_of_objects ++
          [OBJRawObject.fresh "o Cube".toList] ∧
      (OBJRawObject.fresh "o Cube".toList : OBJRawObject Int).object_name =
        "o Cube".toList) ∧
    ∃ (i : Nat) (cur : OBJRawObject Int), stateA.curr_ob = some i ∧
      stateA.list_of_objects[i]? = some cur ∧
      (stateOf [{ (OBJRawObject.fresh "o A".toList : OBJRawObject Int) with
                  material_name := ["usemtl Mat".toList] }]).list_of_objects =
        stateA.list_of_objects.set i
          { cur with material_name := cur.material_name ++ ["usemtl Mat".toList] } :=
  ⟨(c13_whole_line_is_kept intFloat OBJImporter.init
      (stateOf [OBJRawObject.fresh "o Cube".toList]) "o Cube".toList (by decide)).1
      (by decide),
   (c13_whole_line_is_kept intFloat stateA
      (stateOf [{ (OBJRawObject.fresh "o A".toList : OBJRawObject Int) with
                  material_name := ["usemtl Mat".toList] }])
      "usemtl Mat".toList (by decide)).2 (by decide)⟩

end OBJ

/-! ## The descriptor and `initData` of the wave modifier -/

namespace GpencilWave

/-- C11: the descriptor `modifierType_GpencilWave` has seventeen callback slots, and
`initData` is the only one that is not `NULL`: `copyData`, the `deform*` and `apply*`
callbacks, `requiredDataMask`, `freeData`, `isDisabled`, `updateDepsgraph`,
`dependsOnTime`, `dependsOnNormals` and the three `foreach*Link` callbacks are all
`NULL`. -/
theorem c11_only_initData_is_set (sizeofData : Nat) :
    (callbackSlots (modifierType_GpencilWave sizeofData)).length = 17 ∧
    (callbackSlots (modifierType_GpencilWave sizeofData)).filter
        (fun slot => slot.2.isSome) = [("initData", some Callback.initData)] ∧
    (callbackSlots (modifierType_GpencilWave sizeofData)).filter
        (fun slot => slot.2.isNone) =
      [("copyData", none), ("deformVerts", none), ("deformMatrices", none),
       ("deformVertsEM", none), ("deformMatricesEM", none), ("applyModifier", none),
       ("applyModifierEM", none), ("requiredDataMask", none), ("freeData", none),
       ("isDisabled", none), ("updateDepsgraph", none), ("dependsOnTime", none),
       ("dependsOnNormals", none), ("foreachObjectLink", none), ("foreachIDLink", none),
       ("foreachTexLink", none)] :=
  ⟨rfl, rfl, rfl⟩

/-- C15: on every modifier data, `initData` sets `amplitude` to 6.0, `period` to 0.2,
`phase` to 11.0 and `orientation` to 1 and leaves every other field unchanged;
applying it twice gives the same modifier data as applying it once. -/
theorem c15_initData_sets_four_fields {F R W : Type} (f32 : ℚ → F) (alldirty : W → W)
    (md : GpencilWaveModifierData F R) (w w' : W) :
    (initData f32 alldirty md w).1 =
      { other := md.other, amplitude := f32 6.0, period := f32 0.2, phase := f32 11.0,
        orientation := 1 } ∧
    (initData f32 alldirty (initData f32 alldirty md w).1 w').1 =
      (initData f32 alldirty md w).1 :=
  ⟨rfl, rfl⟩

end GpencilWave

/-! ## The layout of the rigid-body records -/

namespace DNA

/-- C14: with 8-byte pointers and natural alignment, in each of `RigidBodyWorld`,
`RigidBodyOb`, `RigidBodyCon` and `RigidBodyShardCon` the offset of every field,
computed as the sum of the sizes of the fields in front of it without padding, is a
multiple of the alignment of the field, and the sizes that result, 88, 120, 248 and
296 bytes, are multiples of 8. -/
theorem c14_records_need_no_padding :
    ((∀ p ∈ (offsetsFrom 0 RigidBodyWorld).zip RigidBodyWorld, p.1 % p.2.type.align = 0) ∧
      packedSize RigidBodyWorld = 88 ∧ 88 % 8 = 0) ∧
    ((∀ p ∈ (offsetsFrom 0 RigidBodyOb).zip RigidBodyOb, p.1 % p.2.type.align = 0) ∧
      packedSize RigidBodyOb = 120 ∧ 120 % 8 = 0) ∧
    ((∀ p ∈ (offsetsFrom 0 RigidBodyCon).zip RigidBodyCon, p.1 % p.2.type.align = 0) ∧
      packedSize RigidBodyCon = 248 ∧ 248 % 8 = 0) ∧
    ((∀ p ∈ (offsetsFrom 0 RigidBodyShardCon).zip RigidBodyShardCon,
        p.1 % p.2.type.align = 0) ∧
      packedSize RigidBodyShardCon = 296 ∧ 296 % 8 = 0) := by
  refine ⟨⟨?_, by decide, by decide⟩, ⟨?_, by decide, by decide⟩,
    ⟨?_, by decide, by decide⟩, ⟨?_, by decide, by decide⟩⟩ <;> decide

end DNA
